import Mathlib

/-!
Verification development for the ORDER BY / sort-plan lowering subsystem
(`src/core/translate/order_by.rs`): collation resolution, sort-key /
result-column deduplication, sorter record layout bookkeeping, and the
feed/drain instruction emission, shallowly embedded in Lean.
-/

namespace Turso

/-- Sort direction of one ORDER BY term (`ast::SortOrder`). -/
inductive SortOrder where
  | Asc
  | Desc
deriving DecidableEq, Repr

/-- Collating sequences (`CollationSeq`); `Binary` is the default. -/
inductive CollationSeq where
  | Binary
  | NoCase
  | Rtrim
deriving DecidableEq, Repr

/-- Default collating sequence (`CollationSeq::default()`), i.e. BINARY. -/
def CollationSeq.default : CollationSeq := CollationSeq.Binary

/-- Expression tree of the parser AST (`ast::Expr`), restricted to the
variants this subsystem inspects: a collate-wrapped expression, a column
reference carrying the table's internal id and the column's positional
index, and the remaining expression kinds (literal, unary / binary
operator application) that the collation resolver treats uniformly. -/
inductive Expr where
  | Literal (value : Int)
  | Column (table : Nat) (column : Nat)
  | Collate (e : Expr) (collation_name : String)
  | Unary (op : String) (e : Expr)
  | Binary (lhs : Expr) (op : String) (rhs : Expr)
deriving DecidableEq, Repr

/-- Does the constructor of the expression carry a COLLATE annotation? -/
def Expr.is_collate : Expr → Bool
  | .Collate _ _ => true
  | _ => false

/-- Is the expression a bare column reference? -/
def Expr.is_column : Expr → Bool
  | .Column _ _ => true
  | _ => false

/-- Errors surfaced by this layer (`LimboError` as used here): an unknown
collation name, or a parse error raised by `bail_parse_error!`. -/
inductive TursoError where
  | UnknownCollation (name : String)
  | ParseError (msg : String)
deriving DecidableEq, Repr

/-- Modelled from the spec: the collation registry (`CollationSeq::new`,
outside src/) resolves a collation name to a comparison function and
fails with an `UnknownCollation` condition if the name is not
registered; the registered sequences are BINARY, NOCASE and RTRIM. -/
def CollationSeq.new (name : String) : Except TursoError CollationSeq :=
  if name = "BINARY" then .ok .Binary
  else if name = "NOCASE" then .ok .NoCase
  else if name = "RTRIM" then .ok .Rtrim
  else .error (.UnknownCollation name)

/-- Modelled from the spec: structural expression equivalence
(`util::exprs_are_equivalent`, outside src/) is a pure recursive
structural comparison of the two expression trees. -/
def exprs_are_equivalent (a b : Expr) : Bool := a == b

/-- One column of a table schema; only its declared collation matters here. -/
structure TColumn where
  collation : Option CollationSeq
deriving DecidableEq, Repr

/-- A table schema: its columns in positional order. -/
structure Table where
  columns : List TColumn
deriving DecidableEq, Repr

/-- Look a column up by positional index (`Table::get_column_at`). -/
def Table.get_column_at (t : Table) (idx : Nat) : Option TColumn :=
  t.columns.get? idx

/-- The tables referenced by the plan, keyed by internal table id
(`TableReferences`). -/
structure TableReferences where
  tables : List (Nat × Table)
deriving DecidableEq, Repr

/-- Look a referenced table up by its internal id
(`TableReferences::find_table_by_internal_id`). -/
def TableReferences.find_table_by_internal_id (trs : TableReferences) (id : Nat) :
    Option Table :=
  (trs.tables.find? (fun p => p.1 == id)).map Prod.snd

/-- Virtual-machine instructions (`Insn`) emitted by this subsystem. The
`TranslateExpr` marker stands for the instruction sequence produced by the
external expression compiler, and `IfPos` / `ResultRow` / `DecrJumpZero` /
`DistinctCheck` stand for the code emitted by the external offset, result
row / limit, and DISTINCT collaborators. -/
inductive Insn where
  | SorterOpen (cursor_id : Nat) (columns : Nat) (order : List SortOrder)
      (collations : List (Option CollationSeq))
  | OpenPseudo (cursor_id : Nat) (content_reg : Nat) (num_fields : Nat)
  | SorterSort (cursor_id : Nat) (pc_if_empty : Nat)
  | SorterData (cursor_id : Nat) (dest_reg : Nat) (pseudo_cursor : Nat)
  | Column (cursor_id : Nat) (column : Nat) (dest_reg : Nat)
  | SorterNext (cursor_id : Nat) (pc_if_next : Nat)
  | MakeRecord (start_reg : Nat) (count : Nat) (dest_reg : Nat)
  | SorterInsert (cursor_id : Nat) (record_reg : Nat)
  | TranslateExpr (e : Expr) (dest_reg : Nat)
  | IfPos (reg : Nat) (target : Nat)
  | ResultRow (start_reg : Nat) (count : Nat)
  | DecrJumpZero (reg : Nat) (target : Nat)
  | DistinctCheck (num_regs : Nat) (start_reg : Nat)
deriving DecidableEq, Repr

/-- Is the instruction an expression-evaluation (expression compiler) one? -/
def Insn.is_translate : Insn → Bool
  | .TranslateExpr _ _ => true
  | _ => false

/-- The column count configured on a pseudo cursor (`PseudoCursorType`). -/
structure PseudoCursorType where
  column_count : Nat
deriving DecidableEq, Repr

/-- Kinds of cursors allocated by this subsystem (`CursorType`). -/
inductive CursorType where
  | Sorter
  | Pseudo (t : PseudoCursorType)
deriving DecidableEq, Repr

/-- The emitted program under construction (`ProgramBuilder`): the
instruction list so far, the allocated cursors (a cursor id is an index
into this list), the next free register, the next fresh label id, and the
label resolutions recorded so far as (label, instruction offset) pairs. -/
structure ProgramBuilder where
  insns : List Insn
  cursors : List CursorType
  next_reg : Nat
  next_label : Nat
  resolved_labels : List (Nat × Nat)
deriving DecidableEq, Repr

/-- Allocate a cursor id (`ProgramBuilder::alloc_cursor_id`). -/
def ProgramBuilder.alloc_cursor_id (p : ProgramBuilder) (t : CursorType) :
    Nat × ProgramBuilder :=
  (p.cursors.length, { p with cursors := p.cursors ++ [t] })

/-- Allocate one register (`ProgramBuilder::alloc_register`). -/
def ProgramBuilder.alloc_register (p : ProgramBuilder) : Nat × ProgramBuilder :=
  (p.next_reg, { p with next_reg := p.next_reg + 1 })

/-- Allocate `n` contiguous registers (`ProgramBuilder::alloc_registers`),
returning the first. -/
def ProgramBuilder.alloc_registers (p : ProgramBuilder) (n : Nat) :
    Nat × ProgramBuilder :=
  (p.next_reg, { p with next_reg := p.next_reg + n })

/-- Allocate a fresh jump label (`ProgramBuilder::allocate_label`). -/
def ProgramBuilder.allocate_label (p : ProgramBuilder) : Nat × ProgramBuilder :=
  (p.next_label, { p with next_label := p.next_label + 1 })

/-- Append one instruction (`ProgramBuilder::emit_insn`). -/
def ProgramBuilder.emit_insn (p : ProgramBuilder) (i : Insn) : ProgramBuilder :=
  { p with insns := p.insns ++ [i] }

/-- Current instruction offset (`ProgramBuilder::offset`). -/
def ProgramBuilder.offset (p : ProgramBuilder) : Nat := p.insns.length

/-- Record that a label resolves to an instruction offset
(`ProgramBuilder::resolve_label`). -/
def ProgramBuilder.resolve_label (p : ProgramBuilder) (lbl pos : Nat) :
    ProgramBuilder :=
  { p with resolved_labels := p.resolved_labels ++ [(lbl, pos)] }

/-- Resolve a label to the offset of the next instruction to be emitted
(`ProgramBuilder::preassign_label_to_next_insn`). -/
def ProgramBuilder.preassign_label_to_next_insn (p : ProgramBuilder) (lbl : Nat) :
    ProgramBuilder :=
  p.resolve_label lbl p.offset

/-- Emit a column-decode instruction (`ProgramBuilder::emit_column`). -/
def ProgramBuilder.emit_column (p : ProgramBuilder) (cursor col dest : Nat) :
    ProgramBuilder :=
  p.emit_insn (.Column cursor col dest)

/-- One result column of the SELECT (`ResultSetColumn`): its expression. -/
structure ResultSetColumn where
  expr : Expr
deriving DecidableEq, Repr

/-- Whether the plan requests SELECT DISTINCT (`Distinctness`); the
distinct context (present once DISTINCT translation has initialized) is
modelled opaquely. -/
inductive Distinctness where
  | NonDistinct
  | Distinct (ctx : Option Unit)
deriving DecidableEq, Repr

/-- The parts of the SELECT plan (`SelectPlan`) this subsystem reads. -/
structure SelectPlan where
  order_by : Option (List (Expr × SortOrder))
  result_columns : List ResultSetColumn
  distinctness : Distinctness
  table_references : TableReferences
deriving DecidableEq, Repr

/-- Metadata for handling ORDER BY operations (`SortMetadata`): the sorter
cursor id and the register holding one fetched sorter record. -/
structure SortMetadata where
  sort_cursor : Nat
  reg_sorter_data : Nat
deriving DecidableEq, Repr

/-- The parts of the shared translation context (`TranslateCtx`) this
subsystem reads or writes. -/
structure TranslateCtx where
  meta_sort : Option SortMetadata
  reg_offset : Option Nat
  limit_ctx : Option Nat
  reg_result_cols_start : Option Nat
  result_column_indexes_in_orderby_sorter : List Nat
  result_columns_to_skip_in_orderby_sorter : Option (List (Nat × Nat))
deriving DecidableEq, Repr

/-- Modelled from the spec: the external expression compiler
(`translate_expr`, outside src/) evaluates an arbitrary expression into a
destination register; its emitted code is abstracted as one
`TranslateExpr` marker instruction. -/
def translate_expr (program : ProgramBuilder) (_referenced_tables : TableReferences)
    (e : Expr) (dest_reg : Nat) : ProgramBuilder :=
  program.emit_insn (.TranslateExpr e dest_reg)

/-- Modelled from the spec: `emit_offset` (outside src/) emits, when an
offset register is present, the check that skips a row while an offset
remains: decrement and jump to `jump_to` without producing output. -/
def emit_offset (program : ProgramBuilder) (_plan : SelectPlan) (jump_to : Nat)
    (reg_offset : Option Nat) : ProgramBuilder :=
  match reg_offset with
  | none => program
  | some reg => program.emit_insn (.IfPos reg jump_to)

/-- Modelled from the spec: `emit_result_row_and_limit` (outside src/)
emits the output row over the contiguous register range and, when a limit
counter register is present, the decrement-and-jump that terminates the
loop at `limit_done_label` once LIMIT is exhausted. -/
def emit_result_row_and_limit (program : ProgramBuilder) (plan : SelectPlan)
    (start_reg : Nat) (limit_ctx : Option Nat) (limit_done_label : Option Nat) :
    ProgramBuilder :=
  let program := program.emit_insn (.ResultRow start_reg plan.result_columns.length)
  match limit_ctx, limit_done_label with
  | some reg, some lbl => program.emit_insn (.DecrJumpZero reg lbl)
  | _, _ => program

/-- First index of the list satisfying the predicate
(`iter().enumerate().find(...)` on the ORDER BY key list). -/
def find_index (p : α → Bool) : List α → Option Nat
  | [] => none
  | a :: l => if p a then some 0 else (find_index p l).map (· + 1)

/-- Per-key collation resolution: the body of the closure mapped over the
ORDER BY terms in `init_order_by`. The outer `Option` is `none` when the
Rust code panics (the `unwrap` on the table lookup); the `Except` carries
the fallible resolution result. -/
def resolve_key_collation (referenced_tables : TableReferences) (expr : Expr) :
    Option (Except TursoError (Option CollationSeq)) :=
  match expr with
  | .Collate _ collation_name =>
      some ((CollationSeq.new collation_name).map some)
  | .Column table column =>
      match referenced_tables.find_table_by_internal_id table with
      | none => none
      | some t =>
          match t.get_column_at column with
          | none => some (.error (.ParseError "column index out of bounds"))
          | some table_column => some (.ok table_column.collation)
  | _ => some (.ok (some CollationSeq.default))

/-- Sequential collection of the per-key collations
(`.collect::<Result<Vec<_>>>()` in `init_order_by`): stops at the first
key whose resolution errors (`some (.error _)`) or panics (`none`). -/
def collations_of (order_by : List (Expr × SortOrder))
    (referenced_tables : TableReferences) :
    Option (Except TursoError (List (Option CollationSeq))) :=
  match order_by with
  | [] => some (.ok [])
  | (e, _) :: rest =>
      match resolve_key_collation referenced_tables e with
      | none => none
      | some (.error err) => some (.error err)
      | some (.ok c) =>
          match collations_of rest referenced_tables with
          | none => none
          | some (.error err) => some (.error err)
          | some (.ok cs) => some (.ok (c :: cs))

/-- Initialize resources needed for ORDER BY processing (`init_order_by`):
allocate the sorter cursor and its data register, store the sort metadata
in the translation context, resolve one collation per key, and emit the
sorter configuration. `none` models a panic; `some (.error e)` the
fail-fast translation abort. -/
def init_order_by (program : ProgramBuilder) (t_ctx : TranslateCtx)
    (order_by : List (Expr × SortOrder)) (referenced_tables : TableReferences) :
    Option (Except TursoError (ProgramBuilder × TranslateCtx)) :=
  let a := program.alloc_cursor_id CursorType.Sorter
  let sort_cursor := a.1
  let b := a.2.alloc_register
  let t_ctx2 := { t_ctx with meta_sort := some ⟨sort_cursor, b.1⟩ }
  match collations_of order_by referenced_tables with
  | none => none
  | some (.error e) => some (.error e)
  | some (.ok collations) =>
      some (.ok
        (b.2.emit_insn
          (.SorterOpen sort_cursor order_by.length (order_by.map Prod.snd) collations),
         t_ctx2))

/-- The scan of `order_by_deduplicate_result_columns`, carried out from
result-column index `n` on: for each result column in SELECT order, find
the first structurally equivalent sort key and record the pair
(result column index, sort key index). -/
def dedup_from (order_by : List (Expr × SortOrder)) :
    Nat → List ResultSetColumn → List (Nat × Nat)
  | _, [] => []
  | n, rc :: rest =>
      match find_index (fun q => exprs_are_equivalent q.1 rc.expr) order_by with
      | some j => (n, j) :: dedup_from order_by (n + 1) rest
      | none => dedup_from order_by (n + 1) rest

/-- Detect result columns that exactly duplicate a sort key
(`order_by_deduplicate_result_columns`); returns the list of
(SkippedResultColumnIndex, ResultColumnIndexInOrderBySorter) pairs, or
`none` when no result column is redundant. -/
def order_by_deduplicate_result_columns (order_by : List (Expr × SortOrder))
    (result_columns : List ResultSetColumn) : Option (List (Nat × Nat)) :=
  match dedup_from order_by 0 result_columns with
  | [] => none
  | x :: xs => some (x :: xs)

/-- Pack a contiguous register range into a record and insert it into a
sorter (`sorter_insert`), shared by GROUP BY and ORDER BY sorters. -/
def sorter_insert (program : ProgramBuilder) (start_reg column_count cursor_id
    record_reg : Nat) : ProgramBuilder :=
  (program.emit_insn (.MakeRecord start_reg column_count record_reg)).emit_insn
    (.SorterInsert cursor_id record_reg)

/-- Look result-column index `i` up in the dedup skip list (the
`v.iter().find(|(skipped_idx, _)| *skipped_idx == i)` step of the feed
loop). -/
def find_skip (skip : Option (List (Nat × Nat))) (i : Nat) : Option (Nat × Nat) :=
  match skip with
  | none => none
  | some v => v.find? (fun q => q.1 == i)

/-- Evaluation of the sort-key expressions into the first registers of the
sorter layout (the first loop of `order_by_sorter_insert`). -/
def translate_keys (referenced_tables : TableReferences) :
    ProgramBuilder → List (Expr × SortOrder) → Nat → ProgramBuilder
  | p, [], _ => p
  | p, (e, _) :: rest, reg =>
      translate_keys referenced_tables (translate_expr p referenced_tables e reg)
        rest (reg + 1)

/-- The result-column loop of `order_by_sorter_insert`, from result-column
index `i` on: a column found in the skip list contributes its sort-key
layout index and no code; any other column is evaluated into the next free
register and contributes the next layout index. Returns the updated
program, the layout indexes recorded for these columns in order, and the
number of columns actually translated. -/
def feed_rc_loop (referenced_tables : TableReferences)
    (skip : Option (List (Nat × Nat))) (program : ProgramBuilder) (i : Nat)
    (rcs : List ResultSetColumn) (cur_reg cur_idx : Nat) :
    ProgramBuilder × List Nat × Nat :=
  match rcs with
  | [] => (program, [], 0)
  | rc :: rest =>
      match find_skip skip i with
      | some q =>
          let r := feed_rc_loop referenced_tables skip program (i + 1) rest
            cur_reg cur_idx
          (r.1, q.2 :: r.2.1, r.2.2)
      | none =>
          let program2 := translate_expr program referenced_tables rc.expr cur_reg
          let r := feed_rc_loop referenced_tables skip program2 (i + 1) rest
            (cur_reg + 1) (cur_idx + 1)
          (r.1, cur_idx :: r.2.1, r.2.2 + 1)

/-- Emit the bytecode inserting one row into the ORDER BY sorter
(`order_by_sorter_insert`): compute the dedup skip list, allocate the
layout registers, evaluate sort keys then non-redundant result columns,
record each result column's layout index (the `Vec::insert(i, _)` calls,
which prepend the new indexes in order before any pre-existing entries),
optionally emit the DISTINCT deduplication check, and pack-and-insert the
record. `none` models a panic (missing ORDER BY or missing distinct
context). -/
def order_by_sorter_insert (program : ProgramBuilder)
    (sort_metadata : SortMetadata) (res_col_indexes_in_orderby_sorter : List Nat)
    (plan : SelectPlan) : Option (ProgramBuilder × List Nat) :=
  match plan.order_by with
  | none => none
  | some order_by =>
    let order_by_len := order_by.length
    let result_columns := plan.result_columns
    let result_columns_to_skip :=
      order_by_deduplicate_result_columns order_by result_columns
    let result_columns_to_skip_len :=
      (result_columns_to_skip.map List.length).getD 0
    let orderby_sorter_column_count :=
      order_by_len + result_columns.length - result_columns_to_skip_len
    let a := program.alloc_registers orderby_sorter_column_count
    let start_reg := a.1
    let p1 := translate_keys plan.table_references a.2 order_by start_reg
    let r := feed_rc_loop plan.table_references result_columns_to_skip p1 0
      result_columns (start_reg + order_by_len) order_by_len
    let res := r.2.1 ++ res_col_indexes_in_orderby_sorter
    match plan.distinctness with
    | .Distinct ctx =>
        match ctx with
        | none => none
        | some _ =>
            let num_regs := order_by_len + r.2.2
            let p2 := r.1.emit_insn (.DistinctCheck num_regs start_reg)
            some (sorter_insert p2 start_reg orderby_sorter_column_count
              sort_metadata.sort_cursor sort_metadata.reg_sorter_data, res)
    | .NonDistinct =>
        some (sorter_insert r.1 start_reg orderby_sorter_column_count
          sort_metadata.sort_cursor sort_metadata.reg_sorter_data, res)

/-- The drain-time column loop of `emit_order_by`: for `k` positions
starting at SELECT position `i`, decode the column at that position's
recorded sorter layout index into the next contiguous output register. -/
def emit_columns_from (cursor : Nat) (idxs : List Nat) (start_reg : Nat) :
    ProgramBuilder → Nat → Nat → ProgramBuilder
  | p, _, 0 => p
  | p, i, Nat.succ k =>
      emit_columns_from cursor idxs start_reg
        (p.emit_column cursor (idxs.getD i 0) (start_reg + i)) (i + 1) k

/-- Emit the bytecode outputting rows from an ORDER BY sorter
(`emit_order_by`): open the pseudo-cursor decoding view over the sorter
layout, begin sorted iteration (jumping to the end when empty), per row
check OFFSET, fetch the record, decode every result column in SELECT
order, emit the row with its LIMIT check, and advance. `none` models a
panic (a missing unwrap target or an out-of-bounds index into the
recorded layout indexes). -/
def emit_order_by (program : ProgramBuilder) (t_ctx : TranslateCtx)
    (plan : SelectPlan) : Option ProgramBuilder :=
  match plan.order_by with
  | none => none
  | some order_by =>
    let result_columns := plan.result_columns
    let s1 := program.allocate_label
    let sort_loop_start_label := s1.1
    let s2 := s1.2.allocate_label
    let sort_loop_next_label := s2.1
    let s3 := s2.2.allocate_label
    let sort_loop_end_label := s3.1
    let sorter_column_count := order_by.length + result_columns.length -
      ((t_ctx.result_columns_to_skip_in_orderby_sorter.map List.length).getD 0)
    let s4 := s3.2.alloc_cursor_id (CursorType.Pseudo ⟨sorter_column_count⟩)
    let pseudo_cursor := s4.1
    match t_ctx.meta_sort with
    | none => none
    | some sm =>
      let p5 := s4.2.emit_insn
        (.OpenPseudo pseudo_cursor sm.reg_sorter_data sorter_column_count)
      let p6 := p5.emit_insn (.SorterSort sm.sort_cursor sort_loop_end_label)
      let p7 := p6.preassign_label_to_next_insn sort_loop_start_label
      let p8 := emit_offset p7 plan sort_loop_next_label t_ctx.reg_offset
      let p9 := p8.emit_insn
        (.SorterData sm.sort_cursor sm.reg_sorter_data pseudo_cursor)
      match t_ctx.reg_result_cols_start with
      | none => none
      | some start_reg =>
        if result_columns.length ≤
            t_ctx.result_column_indexes_in_orderby_sorter.length then
          let p10 := emit_columns_from pseudo_cursor
            t_ctx.result_column_indexes_in_orderby_sorter start_reg p9 0
            result_columns.length
          let p11 := emit_result_row_and_limit p10 plan start_reg t_ctx.limit_ctx
            (some sort_loop_end_label)
          let p12 := p11.resolve_label sort_loop_next_label p11.offset
          let p13 := p12.emit_insn (.SorterNext sm.sort_cursor sort_loop_start_label)
          let p14 := p13.preassign_label_to_next_insn sort_loop_end_label
          some p14
        else none

/-- Modelled from the spec: the runtime effect, on the sequence of rows the
sorting device yields, of the OFFSET/LIMIT control flow the drain loop
emits (the bodies of `emit_offset` and `emit_result_row_and_limit` are
outside src/): OFFSET rows are consumed without producing output before
LIMIT begins counting, and LIMIT exhaustion terminates the whole loop. -/
def drain_rows (rows : List α) (offset_count : Nat) (limit_count : Option Nat) :
    List α :=
  match limit_count with
  | none => rows.drop offset_count
  | some l => (rows.drop offset_count).take l

instance : Inhabited Expr := ⟨.Literal 0⟩

instance : Inhabited SortOrder := ⟨.Asc⟩

instance : Inhabited ResultSetColumn := ⟨⟨.Literal 0⟩⟩

/-- Number of expression-evaluation instructions in an instruction list. -/
def tcount (l : List Insn) : Nat := l.countP Insn.is_translate

/-- The instruction sequence the sort-key loop of `order_by_sorter_insert`
produces: one expression evaluation per key into consecutive registers. -/
def expected_keys : List (Expr × SortOrder) → Nat → List Insn
  | [], _ => []
  | (e, _) :: rest, reg => .TranslateExpr e reg :: expected_keys rest (reg + 1)

/-- The instruction sequence the drain-time column loop produces: one
column decode per SELECT position, reading that position's recorded
layout index into consecutive output registers. -/
def expected_columns (cursor : Nat) (idxs : List Nat) (start_reg : Nat) :
    Nat → Nat → List Insn
  | _, 0 => []
  | i, Nat.succ k =>
      .Column cursor (idxs.getD i 0) (start_reg + i) ::
        expected_columns cursor idxs start_reg (i + 1) k

theorem expected_keys_length (l : List (Expr × SortOrder)) (reg : Nat) :
    (expected_keys l reg).length = l.length := by
  induction l generalizing reg with
  | nil => rfl
  | cons a rest ih => cases a; simp [expected_keys, ih]

theorem translate_keys_insns (trs : TableReferences) (p : ProgramBuilder)
    (l : List (Expr × SortOrder)) (reg : Nat) :
    (translate_keys trs p l reg).insns = p.insns ++ expected_keys l reg := by
  induction l generalizing p reg with
  | nil => simp [translate_keys, expected_keys]
  | cons a rest ih =>
      cases a
      simp [translate_keys, expected_keys, ih, translate_expr,
        ProgramBuilder.emit_insn]

theorem translate_keys_next_reg (trs : TableReferences) (p : ProgramBuilder)
    (l : List (Expr × SortOrder)) (reg : Nat) :
    (translate_keys trs p l reg).next_reg = p.next_reg := by
  induction l generalizing p reg with
  | nil => rfl
  | cons a rest ih =>
      cases a
      simp [translate_keys, ih, translate_expr, ProgramBuilder.emit_insn]

theorem translate_keys_cursors (trs : TableReferences) (p : ProgramBuilder)
    (l : List (Expr × SortOrder)) (reg : Nat) :
    (translate_keys trs p l reg).cursors = p.cursors := by
  induction l generalizing p reg with
  | nil => rfl
  | cons a rest ih =>
      cases a
      simp [translate_keys, ih, translate_expr, ProgramBuilder.emit_insn]

theorem expected_keys_tcount (l : List (Expr × SortOrder)) (reg : Nat) :
    (expected_keys l reg).countP Insn.is_translate = l.length := by
  induction l generalizing reg with
  | nil => rfl
  | cons a rest ih =>
      cases a
      simp [expected_keys, List.countP_cons, ih, Insn.is_translate]

theorem translate_keys_tcount (trs : TableReferences) (p : ProgramBuilder)
    (l : List (Expr × SortOrder)) (reg : Nat) :
    tcount (translate_keys trs p l reg).insns = tcount p.insns + l.length := by
  rw [translate_keys_insns]
  unfold tcount
  rw [List.countP_append, expected_keys_tcount]

theorem expected_columns_length (cursor : Nat) (idxs : List Nat)
    (start_reg i k : Nat) :
    (expected_columns cursor idxs start_reg i k).length = k := by
  induction k generalizing i with
  | zero => rfl
  | succ k ih => simp [expected_columns, ih]

theorem expected_columns_get (cursor : Nat) (idxs : List Nat)
    (start_reg i k m : Nat) (hm : m < k) :
    (expected_columns cursor idxs start_reg i k).get? m =
      some (.Column cursor (idxs.getD (i + m) 0) (start_reg + (i + m))) := by
  induction k generalizing i m with
  | zero => omega
  | succ k ih =>
      cases m with
      | zero => simp [expected_columns]
      | succ m =>
          have := ih (i + 1) m (by omega)
          simp only [expected_columns, List.get?_cons_succ]
          rw [this]
          have h1 : i + 1 + m = i + (m + 1) := by omega
          rw [h1]

theorem emit_columns_from_insns (cursor : Nat) (idxs : List Nat)
    (start_reg : Nat) (p : ProgramBuilder) (i k : Nat) :
    (emit_columns_from cursor idxs start_reg p i k).insns =
      p.insns ++ expected_columns cursor idxs start_reg i k := by
  induction k generalizing p i with
  | zero => simp [emit_columns_from, expected_columns]
  | succ k ih =>
      simp [emit_columns_from, expected_columns, ih, ProgramBuilder.emit_column,
        ProgramBuilder.emit_insn]

theorem emit_columns_from_cursors (cursor : Nat) (idxs : List Nat)
    (start_reg : Nat) (p : ProgramBuilder) (i k : Nat) :
    (emit_columns_from cursor idxs start_reg p i k).cursors = p.cursors := by
  induction k generalizing p i with
  | zero => rfl
  | succ k ih =>
      simp [emit_columns_from, ih, ProgramBuilder.emit_column,
        ProgramBuilder.emit_insn]

theorem emit_columns_from_resolved (cursor : Nat) (idxs : List Nat)
    (start_reg : Nat) (p : ProgramBuilder) (i k : Nat) :
    (emit_columns_from cursor idxs start_reg p i k).resolved_labels =
      p.resolved_labels := by
  induction k generalizing p i with
  | zero => rfl
  | succ k ih =>
      simp [emit_columns_from, ih, ProgramBuilder.emit_column,
        ProgramBuilder.emit_insn]

theorem find_index_eq_none_iff (p : α → Bool) (l : List α) :
    find_index p l = none ↔ ∀ a ∈ l, p a = false := by
  induction l with
  | nil => simp [find_index]
  | cons a rest ih =>
      by_cases h : p a
      · simp [find_index, h]
      · simp only [find_index, if_neg h, Option.map_eq_none', ih]
        constructor
        · intro hall b hb
          rcases List.mem_cons.mp hb with rfl | hb
          · exact Bool.eq_false_iff.mpr h
          · exact hall b hb
        · intro hall b hb
          exact hall b (List.mem_cons_of_mem a hb)

theorem find_index_lt_length (p : α → Bool) (l : List α) (k : Nat)
    (h : find_index p l = some k) : k < l.length := by
  induction l generalizing k with
  | nil => simp [find_index] at h
  | cons a rest ih =>
      by_cases hp : p a
      · simp only [find_index, if_pos hp, Option.some.injEq] at h
        simp only [List.length_cons]
        omega
      · simp only [find_index, if_neg hp, Option.map_eq_some'] at h
        obtain ⟨j, hj, rfl⟩ := h
        have := ih j hj
        simp only [List.length_cons]
        omega

theorem find_index_eq_some_of (p : α → Bool) (l : List α) (k : Nat) (d : α)
    (hk : k < l.length) (h1 : p (l.getD k d) = true)
    (h2 : ∀ j, j < k → p (l.getD j d) = false) :
    find_index p l = some k := by
  induction l generalizing k with
  | nil => simp at hk
  | cons a rest ih =>
      cases k with
      | zero =>
          simp only [List.getD_cons_zero] at h1
          simp [find_index, h1]
      | succ k =>
          have ha : p a = false := by
            have := h2 0 (by omega)
            simpa using this
          simp only [find_index, ha, if_neg (by simp : ¬(false = true))]
          have := ih k (by simpa using hk) (by simpa using h1)
            (fun j hj => by
              have := h2 (j + 1) (by omega)
              simpa using this)
          rw [this]
          rfl

theorem find_index_getD (p : α → Bool) (l : List α) (k : Nat) (d : α)
    (h : find_index p l = some k) : p (l.getD k d) = true := by
  induction l generalizing k with
  | nil => simp [find_index] at h
  | cons a rest ih =>
      by_cases hp : p a
      · simp [find_index, hp] at h
        subst h
        simpa using hp
      · simp only [find_index, if_neg hp, Option.map_eq_some'] at h
        obtain ⟨j, hj, rfl⟩ := h
        simpa using ih j hj

theorem find_index_first (p : α → Bool) (l : List α) (k : Nat) (d : α)
    (h : find_index p l = some k) :
    ∀ j, j < k → p (l.getD j d) = false := by
  induction l generalizing k with
  | nil => simp [find_index] at h
  | cons a rest ih =>
      by_cases hp : p a
      · simp [find_index, hp] at h
        subst h
        omega
      · simp only [find_index, if_neg hp, Option.map_eq_some'] at h
        obtain ⟨j0, hj0, rfl⟩ := h
        intro j hj
        cases j with
        | zero => simpa using Bool.eq_false_iff.mpr hp
        | succ j => simpa using ih j0 hj0 j (by omega)

theorem dedup_from_ge (ob : List (Expr × SortOrder)) (n : Nat)
    (rcs : List ResultSetColumn) : ∀ q ∈ dedup_from ob n rcs, n ≤ q.1 := by
  induction rcs generalizing n with
  | nil => simp [dedup_from]
  | cons rc rest ih =>
      intro q hq
      simp only [dedup_from] at hq
      cases hidx : find_index (fun q => exprs_are_equivalent q.1 rc.expr) ob with
      | some j =>
          rw [hidx] at hq
          rcases List.mem_cons.mp hq with rfl | hq
          · exact Nat.le_refl n
          · have := ih (n + 1) q hq
            omega
      | none =>
          rw [hidx] at hq
          have := ih (n + 1) q hq
          omega

theorem dedup_from_find (ob : List (Expr × SortOrder))
    (rcs : List ResultSetColumn) (n i : Nat) (hi : i < rcs.length) :
    (dedup_from ob n rcs).find? (fun q => q.1 == n + i) =
      (find_index (fun q => exprs_are_equivalent q.1 ((rcs.getD i default).expr))
        ob).map (fun j => (n + i, j)) := by
  induction rcs generalizing n i with
  | nil => simp at hi
  | cons rc rest ih =>
      cases i with
      | zero =>
          simp only [List.getD_cons_zero, dedup_from, Nat.add_zero]
          cases hidx : find_index (fun q => exprs_are_equivalent q.1 rc.expr) ob with
          | some j => simp
          | none =>
              simp only [Option.map_none']
              rw [List.find?_eq_none]
              intro q hq
              have := dedup_from_ge ob (n + 1) rest q hq
              simp only [beq_iff_eq]
              omega
      | succ i =>
          have hi2 : i < rest.length := by simpa using hi
          have h1 : n + (i + 1) = n + 1 + i := by omega
          simp only [List.getD_cons_succ, dedup_from]
          cases hidx : find_index (fun q => exprs_are_equivalent q.1 rc.expr) ob with
          | some j =>
              rw [List.find?_cons_of_neg]
              · rw [h1]
                exact ih (n + 1) i hi2
              · simp only [beq_iff_eq]
                omega
          | none =>
              rw [h1]
              exact ih (n + 1) i hi2

theorem dedup_from_length (ob : List (Expr × SortOrder)) (n : Nat)
    (rcs : List ResultSetColumn) :
    (dedup_from ob n rcs).length =
      rcs.countP (fun rc =>
        (find_index (fun q => exprs_are_equivalent q.1 rc.expr) ob).isSome) := by
  induction rcs generalizing n with
  | nil => simp [dedup_from]
  | cons rc rest ih =>
      simp only [dedup_from, List.countP_cons]
      cases hidx : find_index (fun q => exprs_are_equivalent q.1 rc.expr) ob with
      | some j => simp [ih (n + 1)]
      | none => simp [ih (n + 1)]

theorem dedup_from_eq_nil_iff (ob : List (Expr × SortOrder)) (n : Nat)
    (rcs : List ResultSetColumn) :
    dedup_from ob n rcs = [] ↔
      ∀ rc ∈ rcs,
        find_index (fun q => exprs_are_equivalent q.1 rc.expr) ob = none := by
  induction rcs generalizing n with
  | nil => simp [dedup_from]
  | cons rc rest ih =>
      simp only [dedup_from]
      cases hidx : find_index (fun q => exprs_are_equivalent q.1 rc.expr) ob with
      | some j =>
          simp only [List.cons_ne_nil, false_iff]
          intro hall
          have := hall rc (List.mem_cons_self rc rest)
          rw [hidx] at this
          exact Option.noConfusion this
      | none =>
          rw [ih (n + 1)]
          constructor
          · intro hall b hb
            rcases List.mem_cons.mp hb with rfl | hb
            · exact hidx
            · exact hall b hb
          · intro hall b hb
            exact hall b (List.mem_cons_of_mem rc hb)

theorem dedup_from_mem (ob : List (Expr × SortOrder))
    (rcs : List ResultSetColumn) (n m k : Nat) :
    (m, k) ∈ dedup_from ob n rcs ↔
      ∃ i, i < rcs.length ∧ m = n + i ∧
        find_index (fun q => exprs_are_equivalent q.1 ((rcs.getD i default).expr))
          ob = some k := by
  induction rcs generalizing n with
  | nil => simp [dedup_from]
  | cons rc rest ih =>
      simp only [dedup_from]
      cases hidx : find_index (fun q => exprs_are_equivalent q.1 rc.expr) ob with
      | some j =>
          simp only [List.mem_cons, Prod.mk.injEq, ih (n + 1)]
          constructor
          · rintro (⟨rfl, rfl⟩ | ⟨i, hi, rfl, hfi⟩)
            · exact ⟨0, by simp, by simp, by simpa using hidx⟩
            · exact ⟨i + 1, by simpa using hi, by omega, by simpa using hfi⟩
          · rintro ⟨i, hi, rfl, hfi⟩
            cases i with
            | zero =>
                left
                simp only [List.getD_cons_zero] at hfi
                rw [hidx] at hfi
                cases hfi
                exact ⟨by omega, rfl⟩
            | succ i =>
                right
                refine ⟨i, by simpa using hi, by omega, by simpa using hfi⟩
      | none =>
          rw [ih (n + 1)]
          constructor
          · rintro ⟨i, hi, rfl, hfi⟩
            exact ⟨i + 1, by simpa using hi, by omega, by simpa using hfi⟩
          · rintro ⟨i, hi, rfl, hfi⟩
            cases i with
            | zero =>
                simp only [List.getD_cons_zero] at hfi
                rw [hidx] at hfi
                exact Option.noConfusion hfi
            | succ i =>
                exact ⟨i, by simpa using hi, by omega, by simpa using hfi⟩

theorem find_skip_dedup (ob : List (Expr × SortOrder))
    (rcs : List ResultSetColumn) (m : Nat) (hm : m < rcs.length) :
    find_skip (order_by_deduplicate_result_columns ob rcs) m =
      (find_index (fun q => exprs_are_equivalent q.1 ((rcs.getD m default).expr))
        ob).map (fun j => (m, j)) := by
  unfold order_by_deduplicate_result_columns
  cases hd : dedup_from ob 0 rcs with
  | nil =>
      have hall := (dedup_from_eq_nil_iff ob 0 rcs).mp hd
      have hmem : rcs.getD m default ∈ rcs := by
        rw [List.getD_eq_getElem rcs default hm]
        exact List.getElem_mem hm
      rw [hall (rcs.getD m default) hmem]
      simp [find_skip]
  | cons x xs =>
      have := dedup_from_find ob rcs 0 m hm
      rw [hd] at this
      simpa [find_skip] using this

theorem feed_rc_loop_next_reg (trs : TableReferences)
    (skip : Option (List (Nat × Nat))) (p : ProgramBuilder) (i : Nat)
    (rcs : List ResultSetColumn) (cur_reg cur_idx : Nat) :
    (feed_rc_loop trs skip p i rcs cur_reg cur_idx).1.next_reg = p.next_reg := by
  induction rcs generalizing p i cur_reg cur_idx with
  | nil => rfl
  | cons rc rest ih =>
      simp only [feed_rc_loop]
      cases hfs : find_skip skip i with
      | some q => exact ih p (i + 1) cur_reg cur_idx
      | none =>
          have := ih (translate_expr p trs rc.expr cur_reg) (i + 1) (cur_reg + 1)
            (cur_idx + 1)
          simpa [translate_expr, ProgramBuilder.emit_insn] using this

theorem feed_rc_loop_cursors (trs : TableReferences)
    (skip : Option (List (Nat × Nat))) (p : ProgramBuilder) (i : Nat)
    (rcs : List ResultSetColumn) (cur_reg cur_idx : Nat) :
    (feed_rc_loop trs skip p i rcs cur_reg cur_idx).1.cursors = p.cursors := by
  induction rcs generalizing p i cur_reg cur_idx with
  | nil => rfl
  | cons rc rest ih =>
      simp only [feed_rc_loop]
      cases hfs : find_skip skip i with
      | some q => exact ih p (i + 1) cur_reg cur_idx
      | none =>
          have := ih (translate_expr p trs rc.expr cur_reg) (i + 1) (cur_reg + 1)
            (cur_idx + 1)
          simpa [translate_expr, ProgramBuilder.emit_insn] using this

theorem feed_rc_loop_tcount (trs : TableReferences)
    (skip : Option (List (Nat × Nat))) (p : ProgramBuilder) (i : Nat)
    (rcs : List ResultSetColumn) (cur_reg cur_idx : Nat) :
    tcount (feed_rc_loop trs skip p i rcs cur_reg cur_idx).1.insns =
      tcount p.insns + (feed_rc_loop trs skip p i rcs cur_reg cur_idx).2.2 := by
  induction rcs generalizing p i cur_reg cur_idx with
  | nil => simp [feed_rc_loop]
  | cons rc rest ih =>
      simp only [feed_rc_loop]
      cases hfs : find_skip skip i with
      | some q => exact ih p (i + 1) cur_reg cur_idx
      | none =>
          have := ih (translate_expr p trs rc.expr cur_reg) (i + 1) (cur_reg + 1)
            (cur_idx + 1)
          rw [this]
          simp only [translate_expr, ProgramBuilder.emit_insn, tcount,
            List.countP_append]
          simp [Insn.is_translate, List.countP_cons]
          omega

theorem feed_rc_loop_len (trs : TableReferences)
    (skip : Option (List (Nat × Nat))) (p : ProgramBuilder) (i : Nat)
    (rcs : List ResultSetColumn) (cur_reg cur_idx : Nat) :
    (feed_rc_loop trs skip p i rcs cur_reg cur_idx).2.1.length = rcs.length := by
  induction rcs generalizing p i cur_reg cur_idx with
  | nil => rfl
  | cons rc rest ih =>
      simp only [feed_rc_loop]
      cases hfs : find_skip skip i with
      | some q => simp [ih p (i + 1) cur_reg cur_idx]
      | none =>
          simp [ih (translate_expr p trs rc.expr cur_reg) (i + 1) (cur_reg + 1)
            (cur_idx + 1)]

theorem feed_rc_loop_entry (trs : TableReferences)
    (skip : Option (List (Nat × Nat))) (p : ProgramBuilder) (i : Nat)
    (rcs : List ResultSetColumn) (cur_reg cur_idx : Nat) (m : Nat)
    (hm : m < rcs.length) (q : Nat × Nat) (hq : find_skip skip (i + m) = some q) :
    (feed_rc_loop trs skip p i rcs cur_reg cur_idx).2.1.getD m 0 = q.2 := by
  induction rcs generalizing p i cur_reg cur_idx m with
  | nil => simp at hm
  | cons rc rest ih =>
      cases m with
      | zero =>
          simp only [Nat.add_zero] at hq
          simp [feed_rc_loop, hq]
      | succ m =>
          have hm2 : m < rest.length := by simpa using hm
          have hq2 : find_skip skip (i + 1 + m) = some q := by
            have h1 : i + 1 + m = i + (m + 1) := by omega
            rw [h1]
            exact hq
          simp only [feed_rc_loop]
          cases hfs : find_skip skip i with
          | some q2 =>
              simpa using ih p (i + 1) cur_reg cur_idx m hm2 hq2
          | none =>
              simpa using ih (translate_expr p trs rc.expr cur_reg) (i + 1)
                (cur_reg + 1) (cur_idx + 1) m hm2 hq2

theorem feed_rc_loop_count (trs : TableReferences)
    (skip : Option (List (Nat × Nat))) (ob : List (Expr × SortOrder))
    (p : ProgramBuilder) (i : Nat) (rcs : List ResultSetColumn)
    (cur_reg cur_idx : Nat)
    (hs : ∀ m, m < rcs.length →
      (find_skip skip (i + m)).isSome =
        (find_index (fun q => exprs_are_equivalent q.1 ((rcs.getD m default).expr))
          ob).isSome) :
    (feed_rc_loop trs skip p i rcs cur_reg cur_idx).2.2 =
      rcs.countP (fun rc =>
        (find_index (fun q => exprs_are_equivalent q.1 rc.expr) ob).isNone) := by
  induction rcs generalizing p i cur_reg cur_idx with
  | nil => simp [feed_rc_loop]
  | cons rc rest ih =>
      have h0 := hs 0 (by simp)
      simp only [Nat.add_zero, List.getD_cons_zero] at h0
      have hs2 : ∀ m, m < rest.length →
          (find_skip skip (i + 1 + m)).isSome =
            (find_index
              (fun q => exprs_are_equivalent q.1 ((rest.getD m default).expr))
              ob).isSome := by
        intro m hm
        have h1 : i + 1 + m = i + (m + 1) := by omega
        rw [h1]
        simpa using hs (m + 1) (by simpa using hm)
      simp only [feed_rc_loop, List.countP_cons]
      cases hfs : find_skip skip i with
      | some q =>
          rw [hfs] at h0
          simp only [Option.isSome_some] at h0
          have hr : (find_index (fun q => exprs_are_equivalent q.1 rc.expr)
              ob).isNone = false := by
            cases hfi : find_index (fun q => exprs_are_equivalent q.1 rc.expr) ob with
            | some j => rfl
            | none => rw [hfi] at h0; simp at h0
          rw [hr]
          simpa using ih p (i + 1) cur_reg cur_idx hs2
      | none =>
          rw [hfs] at h0
          simp only [Option.isSome_none] at h0
          have hr : (find_index (fun q => exprs_are_equivalent q.1 rc.expr)
              ob).isNone = true := by
            cases hfi : find_index (fun q => exprs_are_equivalent q.1 rc.expr) ob with
            | some j => rw [hfi] at h0; simp at h0
            | none => rfl
          rw [hr]
          have := ih (translate_expr p trs rc.expr cur_reg) (i + 1) (cur_reg + 1)
            (cur_idx + 1) hs2
          simp [this]

theorem collations_of_ok_spec (ob : List (Expr × SortOrder))
    (trs : TableReferences) (cs : List (Option CollationSeq))
    (h : collations_of ob trs = some (.ok cs)) :
    cs.length = ob.length ∧
      ∀ j, j < ob.length →
        resolve_key_collation trs ((ob.getD j default).1) =
          some (.ok (cs.getD j none)) := by
  induction ob generalizing cs with
  | nil =>
      simp only [collations_of, Option.some.injEq, Except.ok.injEq] at h
      subst h
      exact ⟨rfl, fun j hj => by simp at hj⟩
  | cons a rest ih =>
      obtain ⟨e, d⟩ := a
      simp only [collations_of] at h
      cases hr : resolve_key_collation trs e with
      | none => rw [hr] at h; exact Option.noConfusion h
      | some r =>
          rw [hr] at h
          cases r with
          | error err => exact Except.noConfusion ((Option.some.injEq _ _).mp h)
          | ok c =>
              cases hrest : collations_of rest trs with
              | none => rw [hrest] at h; exact Option.noConfusion h
              | some r2 =>
                  rw [hrest] at h
                  cases r2 with
                  | error err =>
                      exact Except.noConfusion ((Option.some.injEq _ _).mp h)
                  | ok cs2 =>
                      have hcs : cs = c :: cs2 := by
                        have h2 := (Option.some.injEq _ _).mp h
                        cases h2
                        rfl
                      subst hcs
                      obtain ⟨hlen, hall⟩ := ih cs2 hrest
                      refine ⟨by simp [hlen], ?_⟩
                      intro j hj
                      cases j with
                      | zero => simpa using hr
                      | succ j =>
                          simpa using hall j (by simpa using hj)

theorem collations_of_error_exists (ob : List (Expr × SortOrder))
    (trs : TableReferences) (e : TursoError)
    (h : collations_of ob trs = some (.error e)) :
    ∃ j, j < ob.length ∧ ∃ e2,
      resolve_key_collation trs ((ob.getD j default).1) = some (.error e2) := by
  induction ob with
  | nil => simp only [collations_of, Option.some.injEq] at h; exact Except.noConfusion h
  | cons a rest ih =>
      obtain ⟨e1, d⟩ := a
      simp only [collations_of] at h
      cases hr : resolve_key_collation trs e1 with
      | none => rw [hr] at h; exact Option.noConfusion h
      | some r =>
          rw [hr] at h
          cases r with
          | error err =>
              exact ⟨0, by simp, err, by simpa using hr⟩
          | ok c =>
              cases hrest : collations_of rest trs with
              | none => rw [hrest] at h; exact Option.noConfusion h
              | some r2 =>
                  rw [hrest] at h
                  cases r2 with
                  | error err =>
                      obtain ⟨j, hj, e2, he2⟩ := ih (by
                        have := (Option.some.injEq _ _).mp h
                        cases this
                        exact hrest)
                      exact ⟨j + 1, by simpa using hj, e2, by simpa using he2⟩
                  | ok cs2 =>
                      exact Except.noConfusion ((Option.some.injEq _ _).mp h)

theorem collations_of_none_of_first_panic (ob : List (Expr × SortOrder))
    (trs : TableReferences) (j : Nat) (hj : j < ob.length)
    (hpanic : resolve_key_collation trs ((ob.getD j default).1) = none)
    (hearlier : ∀ j2, j2 < j → ∃ v,
      resolve_key_collation trs ((ob.getD j2 default).1) = some (.ok v)) :
    collations_of ob trs = none := by
  induction ob generalizing j with
  | nil => simp at hj
  | cons a rest ih =>
      obtain ⟨e, d⟩ := a
      simp only [collations_of]
      cases j with
      | zero =>
          simp only [List.getD_cons_zero] at hpanic
          rw [hpanic]
      | succ j =>
          have h0 := hearlier 0 (by omega)
          simp only [List.getD_cons_zero] at h0
          obtain ⟨v, hv⟩ := h0
          rw [hv]
          have := ih j (by simpa using hj) (by simpa using hpanic)
            (fun j2 hj2 => by simpa using hearlier (j2 + 1) (by omega))
          rw [this]

theorem resolve_error_cases (trs : TableReferences) (key : Expr) :
    (∃ e, resolve_key_collation trs key = some (.error e)) ↔
      ((∃ inner nm, key = .Collate inner nm ∧
          ∃ e2, CollationSeq.new nm = .error e2) ∨
        (∃ t c tbl, key = .Column t c ∧
          trs.find_table_by_internal_id t = some tbl ∧
          tbl.get_column_at c = none)) := by
  cases key with
  | Literal v => simp [resolve_key_collation]
  | Unary op e => simp [resolve_key_collation]
  | Binary l op r => simp [resolve_key_collation]
  | Collate inner nm =>
      simp only [resolve_key_collation]
      constructor
      . rintro ⟨e, he⟩
        left
        refine ⟨inner, nm, rfl, ?_⟩
        cases hn : CollationSeq.new nm with
        | error e2 => exact ⟨e2, rfl⟩
        | ok c => rw [hn] at he; simp [Except.map] at he
      . rintro (⟨inner2, nm2, heq, e2, he2⟩ | ⟨t, c, tbl, heq, _, _⟩)
        . cases heq
          rw [he2]
          exact ⟨e2, rfl⟩
        . exact Expr.noConfusion heq
  | Column t c =>
      simp only [resolve_key_collation]
      constructor
      . rintro ⟨e, he⟩
        right
        cases hf : trs.find_table_by_internal_id t with
        | none => simp [hf] at he
        | some tbl =>
            simp only [hf] at he
            cases hc : tbl.get_column_at c with
            | none => exact ⟨t, c, tbl, rfl, hf, hc⟩
            | some col => simp [hc] at he
      . rintro (⟨inner, nm, heq, _, _⟩ | ⟨t2, c2, tbl, heq, hf, hc⟩)
        . exact Expr.noConfusion heq
        . cases heq
          refine ⟨.ParseError "column index out of bounds", ?_⟩
          simp [hf, hc]

/-- Instructions the offset collaborator contributes to the loop head. -/
def offset_insns (reg_offset : Option Nat) (jump_to : Nat) : List Insn :=
  match reg_offset with
  | none => []
  | some r => [.IfPos r jump_to]

/-- Instructions the limit handling contributes after the output row. -/
def limit_insns (limit_ctx : Option Nat) (lbl : Nat) : List Insn :=
  match limit_ctx with
  | none => []
  | some r => [.DecrJumpZero r lbl]

theorem emit_offset_insns (p : ProgramBuilder) (plan : SelectPlan) (jt : Nat)
    (ro : Option Nat) :
    (emit_offset p plan jt ro).insns = p.insns ++ offset_insns ro jt := by
  cases ro <;> simp [emit_offset, offset_insns, ProgramBuilder.emit_insn]

theorem emit_offset_cursors (p : ProgramBuilder) (plan : SelectPlan) (jt : Nat)
    (ro : Option Nat) :
    (emit_offset p plan jt ro).cursors = p.cursors := by
  cases ro <;> simp [emit_offset, ProgramBuilder.emit_insn]

theorem emit_offset_resolved (p : ProgramBuilder) (plan : SelectPlan) (jt : Nat)
    (ro : Option Nat) :
    (emit_offset p plan jt ro).resolved_labels = p.resolved_labels := by
  cases ro <;> simp [emit_offset, ProgramBuilder.emit_insn]

theorem emit_rrl_insns (p : ProgramBuilder) (plan : SelectPlan) (sr : Nat)
    (lc : Option Nat) (lbl : Nat) :
    (emit_result_row_and_limit p plan sr lc (some lbl)).insns =
      p.insns ++ [.ResultRow sr plan.result_columns.length] ++
        limit_insns lc lbl := by
  cases lc <;>
    simp [emit_result_row_and_limit, limit_insns, ProgramBuilder.emit_insn]

theorem emit_rrl_cursors (p : ProgramBuilder) (plan : SelectPlan) (sr : Nat)
    (lc : Option Nat) (lbl : Nat) :
    (emit_result_row_and_limit p plan sr lc (some lbl)).cursors = p.cursors := by
  cases lc <;> simp [emit_result_row_and_limit, ProgramBuilder.emit_insn]

theorem emit_rrl_resolved (p : ProgramBuilder) (plan : SelectPlan) (sr : Nat)
    (lc : Option Nat) (lbl : Nat) :
    (emit_result_row_and_limit p plan sr lc (some lbl)).resolved_labels =
      p.resolved_labels := by
  cases lc <;> simp [emit_result_row_and_limit, ProgramBuilder.emit_insn]

theorem emit_order_by_spec (program : ProgramBuilder) (t_ctx : TranslateCtx)
    (plan : SelectPlan) (ob : List (Expr × SortOrder)) (sm : SortMetadata)
    (sr : Nat) (pd : ProgramBuilder)
    (hob : plan.order_by = some ob)
    (hms : t_ctx.meta_sort = some sm)
    (hsr : t_ctx.reg_result_cols_start = some sr)
    (hlen : plan.result_columns.length ≤
      t_ctx.result_column_indexes_in_orderby_sorter.length)
    (h : emit_order_by program t_ctx plan = some pd) :
    pd.insns = program.insns ++
      [.OpenPseudo program.cursors.length sm.reg_sorter_data
          (ob.length + plan.result_columns.length -
            ((t_ctx.result_columns_to_skip_in_orderby_sorter.map
              List.length).getD 0)),
        .SorterSort sm.sort_cursor (program.next_label + 2)] ++
      offset_insns t_ctx.reg_offset (program.next_label + 1) ++
      [.SorterData sm.sort_cursor sm.reg_sorter_data program.cursors.length] ++
      expected_columns program.cursors.length
        t_ctx.result_column_indexes_in_orderby_sorter sr 0
        plan.result_columns.length ++
      [.ResultRow sr plan.result_columns.length] ++
      limit_insns t_ctx.limit_ctx (program.next_label + 2) ++
      [.SorterNext sm.sort_cursor program.next_label] := by
  unfold emit_order_by at h
  simp only [hob, hms, hsr] at h
  rw [if_pos hlen] at h
  injection h with h
  subst h
  simp [ProgramBuilder.emit_insn, ProgramBuilder.preassign_label_to_next_insn,
    ProgramBuilder.resolve_label, ProgramBuilder.offset,
    ProgramBuilder.alloc_cursor_id, ProgramBuilder.allocate_label,
    emit_columns_from_insns, emit_offset_insns, emit_rrl_insns,
    emit_columns_from_cursors, emit_offset_cursors, emit_rrl_cursors]

theorem emit_order_by_spec_cursors (program : ProgramBuilder)
    (t_ctx : TranslateCtx) (plan : SelectPlan) (ob : List (Expr × SortOrder))
    (sm : SortMetadata) (sr : Nat) (pd : ProgramBuilder)
    (hob : plan.order_by = some ob)
    (hms : t_ctx.meta_sort = some sm)
    (hsr : t_ctx.reg_result_cols_start = some sr)
    (hlen : plan.result_columns.length ≤
      t_ctx.result_column_indexes_in_orderby_sorter.length)
    (h : emit_order_by program t_ctx plan = some pd) :
    pd.cursors = program.cursors ++
      [.Pseudo ⟨ob.length + plan.result_columns.length -
        ((t_ctx.result_columns_to_skip_in_orderby_sorter.map
          List.length).getD 0)⟩] := by
  unfold emit_order_by at h
  simp only [hob, hms, hsr] at h
  rw [if_pos hlen] at h
  injection h with h
  subst h
  simp [ProgramBuilder.emit_insn, ProgramBuilder.preassign_label_to_next_insn,
    ProgramBuilder.resolve_label, ProgramBuilder.offset,
    ProgramBuilder.alloc_cursor_id, ProgramBuilder.allocate_label,
    emit_columns_from_cursors, emit_offset_cursors, emit_rrl_cursors]

theorem emit_order_by_spec_resolved (program : ProgramBuilder)
    (t_ctx : TranslateCtx) (plan : SelectPlan) (ob : List (Expr × SortOrder))
    (sm : SortMetadata) (sr : Nat) (pd : ProgramBuilder)
    (hob : plan.order_by = some ob)
    (hms : t_ctx.meta_sort = some sm)
    (hsr : t_ctx.reg_result_cols_start = some sr)
    (hlen : plan.result_columns.length ≤
      t_ctx.result_column_indexes_in_orderby_sorter.length)
    (h : emit_order_by program t_ctx plan = some pd) :
    pd.resolved_labels = program.resolved_labels ++
      [(program.next_label, program.insns.length + 2),
       (program.next_label + 1, program.insns.length + 4 +
         (offset_insns t_ctx.reg_offset (program.next_label + 1)).length +
         plan.result_columns.length +
         (limit_insns t_ctx.limit_ctx (program.next_label + 2)).length),
       (program.next_label + 2, program.insns.length + 5 +
         (offset_insns t_ctx.reg_offset (program.next_label + 1)).length +
         plan.result_columns.length +
         (limit_insns t_ctx.limit_ctx (program.next_label + 2)).length)] := by
  unfold emit_order_by at h
  simp only [hob, hms, hsr] at h
  rw [if_pos hlen] at h
  injection h with h
  subst h
  have h2 : program.next_label + 1 + 1 = program.next_label + 2 := rfl
  simp [ProgramBuilder.emit_insn, ProgramBuilder.preassign_label_to_next_insn,
    ProgramBuilder.resolve_label, ProgramBuilder.offset,
    ProgramBuilder.alloc_cursor_id, ProgramBuilder.allocate_label,
    emit_columns_from_insns, emit_offset_insns, emit_rrl_insns,
    emit_columns_from_resolved, emit_offset_resolved, emit_rrl_resolved,
    expected_columns_length, List.length_append, h2]
  omega

theorem init_order_by_none_iff (program : ProgramBuilder) (t_ctx : TranslateCtx)
    (ob : List (Expr × SortOrder)) (trs : TableReferences) :
    init_order_by program t_ctx ob trs = none ↔ collations_of ob trs = none := by
  unfold init_order_by
  cases hc : collations_of ob trs with
  | none => simp
  | some r => cases r <;> simp

theorem init_order_by_error_iff (program : ProgramBuilder) (t_ctx : TranslateCtx)
    (ob : List (Expr × SortOrder)) (trs : TableReferences) (e : TursoError) :
    init_order_by program t_ctx ob trs = some (.error e) ↔
      collations_of ob trs = some (.error e) := by
  unfold init_order_by
  cases hc : collations_of ob trs with
  | none => simp
  | some r => cases r <;> simp

theorem init_order_by_ok_spec (program : ProgramBuilder) (t_ctx : TranslateCtx)
    (ob : List (Expr × SortOrder)) (trs : TableReferences)
    (p2 : ProgramBuilder) (ctx2 : TranslateCtx)
    (h : init_order_by program t_ctx ob trs = some (.ok (p2, ctx2))) :
    ∃ cs, collations_of ob trs = some (.ok cs) ∧
      p2.insns = program.insns ++
        [.SorterOpen program.cursors.length ob.length (ob.map Prod.snd) cs] ∧
      ctx2.meta_sort = some ⟨program.cursors.length, program.next_reg⟩ := by
  unfold init_order_by at h
  cases hc : collations_of ob trs with
  | none => rw [hc] at h; exact Option.noConfusion h
  | some r =>
      rw [hc] at h
      cases r with
      | error err => exact Except.noConfusion ((Option.some.injEq _ _).mp h)
      | ok cs =>
          refine ⟨cs, rfl, ?_⟩
          have h2 := (Option.some.injEq _ _).mp h
          have h3 := (Except.ok.injEq _ _).mp h2
          cases h3
          constructor
          . simp [ProgramBuilder.emit_insn, ProgramBuilder.alloc_cursor_id,
              ProgramBuilder.alloc_register]
          . simp [ProgramBuilder.alloc_cursor_id, ProgramBuilder.alloc_register]

theorem sorter_insert_insns (p : ProgramBuilder) (sr cnt cid rr : Nat) :
    (sorter_insert p sr cnt cid rr).insns =
      p.insns ++ [.MakeRecord sr cnt rr, .SorterInsert cid rr] := by
  simp [sorter_insert, ProgramBuilder.emit_insn]

theorem sorter_insert_next_reg (p : ProgramBuilder) (sr cnt cid rr : Nat) :
    (sorter_insert p sr cnt cid rr).next_reg = p.next_reg := by
  simp [sorter_insert, ProgramBuilder.emit_insn]

theorem order_by_sorter_insert_eq (program : ProgramBuilder) (sm : SortMetadata)
    (res : List Nat) (plan : SelectPlan) (ob : List (Expr × SortOrder))
    (hob : plan.order_by = some ob)
    (hd : plan.distinctness = .NonDistinct) :
    order_by_sorter_insert program sm res plan =
      some (sorter_insert
        (feed_rc_loop plan.table_references
          (order_by_deduplicate_result_columns ob plan.result_columns)
          (translate_keys plan.table_references
            (program.alloc_registers (ob.length + plan.result_columns.length -
              ((order_by_deduplicate_result_columns ob
                plan.result_columns).map List.length).getD 0)).2
            ob program.next_reg)
          0 plan.result_columns (program.next_reg + ob.length) ob.length).1
        program.next_reg
        (ob.length + plan.result_columns.length -
          ((order_by_deduplicate_result_columns ob
            plan.result_columns).map List.length).getD 0)
        sm.sort_cursor sm.reg_sorter_data,
      (feed_rc_loop plan.table_references
        (order_by_deduplicate_result_columns ob plan.result_columns)
        (translate_keys plan.table_references
          (program.alloc_registers (ob.length + plan.result_columns.length -
            ((order_by_deduplicate_result_columns ob
              plan.result_columns).map List.length).getD 0)).2
          ob program.next_reg)
        0 plan.result_columns (program.next_reg + ob.length) ob.length).2.1
        ++ res) := by
  unfold order_by_sorter_insert
  simp only [hob, hd]
  simp [ProgramBuilder.alloc_registers]

theorem order_by_sorter_insert_eq_distinct (program : ProgramBuilder)
    (sm : SortMetadata) (res : List Nat) (plan : SelectPlan)
    (ob : List (Expr × SortOrder))
    (hob : plan.order_by = some ob)
    (hd : plan.distinctness = .Distinct (some ())) :
    order_by_sorter_insert program sm res plan =
      some (sorter_insert
        ((feed_rc_loop plan.table_references
          (order_by_deduplicate_result_columns ob plan.result_columns)
          (translate_keys plan.table_references
            (program.alloc_registers (ob.length + plan.result_columns.length -
              ((order_by_deduplicate_result_columns ob
                plan.result_columns).map List.length).getD 0)).2
            ob program.next_reg)
          0 plan.result_columns (program.next_reg + ob.length)
          ob.length).1.emit_insn
          (.DistinctCheck (ob.length +
            (feed_rc_loop plan.table_references
              (order_by_deduplicate_result_columns ob plan.result_columns)
              (translate_keys plan.table_references
                (program.alloc_registers (ob.length + plan.result_columns.length -
                  ((order_by_deduplicate_result_columns ob
                    plan.result_columns).map List.length).getD 0)).2
                ob program.next_reg)
              0 plan.result_columns (program.next_reg + ob.length)
              ob.length).2.2)
            program.next_reg))
        program.next_reg
        (ob.length + plan.result_columns.length -
          ((order_by_deduplicate_result_columns ob
            plan.result_columns).map List.length).getD 0)
        sm.sort_cursor sm.reg_sorter_data,
      (feed_rc_loop plan.table_references
        (order_by_deduplicate_result_columns ob plan.result_columns)
        (translate_keys plan.table_references
          (program.alloc_registers (ob.length + plan.result_columns.length -
            ((order_by_deduplicate_result_columns ob
              plan.result_columns).map List.length).getD 0)).2
          ob program.next_reg)
        0 plan.result_columns (program.next_reg + ob.length) ob.length).2.1
        ++ res) := by
  unfold order_by_sorter_insert
  simp only [hob, hd]
  simp [ProgramBuilder.alloc_registers]

theorem skip_len_eq (ob : List (Expr × SortOrder)) (rcs : List ResultSetColumn) :
    ((order_by_deduplicate_result_columns ob rcs).map List.length).getD 0 =
      (dedup_from ob 0 rcs).length := by
  unfold order_by_deduplicate_result_columns
  cases hd : dedup_from ob 0 rcs with
  | nil => simp
  | cons x xs => simp

theorem countP_isSome_add_isNone (f : α → Option β) (l : List α) :
    l.countP (fun a => (f a).isSome) + l.countP (fun a => (f a).isNone) =
      l.length := by
  induction l with
  | nil => simp
  | cons a rest ih =>
      simp only [List.countP_cons]
      cases hf : f a <;> simp <;> omega

theorem getElem_append_len (l1 l2 : List α) (i : Nat) :
    (l1 ++ l2)[l1.length + i]? = l2[i]? := by
  rw [List.getElem?_append_right (Nat.le_add_right _ _)]
  simp

/-- Empty program builder used for concrete instantiations. -/
def p0 : ProgramBuilder := ⟨[], [], 0, 0, []⟩

/-- Blank translation context used for concrete instantiations. -/
def ctx0 : TranslateCtx := ⟨none, none, none, none, [], none⟩

/-- One-table schema: table 0 has column 0 without a declared collation and
column 1 declared NOCASE. -/
def trs1 : TableReferences := ⟨[(0, ⟨[⟨none⟩, ⟨some .NoCase⟩]⟩)]⟩

/-- ORDER BY price DESC (price is column 1 of table 0). -/
def ob1 : List (Expr × SortOrder) := [(.Column 0 1, .Desc)]

/-- SELECT name, price. -/
def rcs1 : List ResultSetColumn := [⟨.Column 0 0⟩, ⟨.Column 0 1⟩]

/-- The plan for SELECT name, price ... ORDER BY price DESC. -/
def plan1 : SelectPlan := ⟨some ob1, rcs1, .NonDistinct, trs1⟩

/-- Same plan with SELECT DISTINCT. -/
def plan1d : SelectPlan := ⟨some ob1, rcs1, .Distinct (some ()), trs1⟩

/-- Sort metadata for the concrete runs. -/
def sm1 : SortMetadata := ⟨0, 7⟩

/-- Keys exercising all three collation precedence cases over `trs1`. -/
def obW : List (Expr × SortOrder) :=
  [(.Collate (.Column 0 0) "NOCASE", .Asc), (.Column 0 0, .Asc),
   (.Literal 5, .Asc)]

/-- Key list whose first key names an unregistered collation. -/
def obE : List (Expr × SortOrder) := [(.Collate (.Literal 0) "X", .Asc)]

/-- Key list with an unknown collation before a column reference whose
table id is absent from the referenced tables. -/
def ob10 : List (Expr × SortOrder) :=
  [(.Collate (.Literal 0) "X", .Asc), (.Column 5 0, .Asc)]

/-- Result of `init_order_by` on the precedence example. -/
def initW : Option (Except TursoError (ProgramBuilder × TranslateCtx)) :=
  init_order_by p0 ctx0 obW trs1

/-- Program produced by `init_order_by` on the precedence example. -/
def pW : ProgramBuilder :=
  match initW with
  | some (.ok (p, _)) => p
  | _ => p0

/-- Context produced by `init_order_by` on the precedence example. -/
def ctxW : TranslateCtx :=
  match initW with
  | some (.ok (_, c)) => c
  | _ => ctx0

/-- C3: for every sort key, the collation recorded by `init_order_by`
follows the precedence COLLATE annotation > declared column collation >
default binary collation; the assignment is one entry per key, in key
order, and is the list passed in the emitted sorter configuration. -/
theorem claim_C3 (program : ProgramBuilder) (t_ctx : TranslateCtx)
    (ob : List (Expr × SortOrder)) (trs : TableReferences)
    (p2 : ProgramBuilder) (ctx2 : TranslateCtx)
    (h : init_order_by program t_ctx ob trs = some (.ok (p2, ctx2))) :
    ∃ cs, p2.insns = program.insns ++
        [.SorterOpen program.cursors.length ob.length (ob.map Prod.snd) cs] ∧
      cs.length = ob.length ∧
      ∀ j, j < ob.length →
        (∀ inner nm c, (ob.getD j default).1 = .Collate inner nm →
          CollationSeq.new nm = .ok c → cs.getD j none = some c) ∧
        (∀ t c tbl col, (ob.getD j default).1 = .Column t c →
          trs.find_table_by_internal_id t = some tbl →
          tbl.get_column_at c = some col → cs.getD j none = col.collation) ∧
        ((ob.getD j default).1.is_collate = false →
          (ob.getD j default).1.is_column = false →
          cs.getD j none = some CollationSeq.default) := by
  obtain ⟨cs, hcoll, hins, _⟩ := init_order_by_ok_spec program t_ctx ob trs p2 ctx2 h
  obtain ⟨hlen, hall⟩ := collations_of_ok_spec ob trs cs hcoll
  refine ⟨cs, hins, hlen, ?_⟩
  intro j hj
  have hres := hall j hj
  refine ⟨?_, ?_, ?_⟩
  . intro inner nm c hkey hnew
    rw [hkey] at hres
    simp [resolve_key_collation, hnew, Except.map] at hres
    rw [List.getD_eq_getElem?_getD]
    exact hres.symm
  . intro t c tbl col hkey hf hcol
    rw [hkey] at hres
    simp [resolve_key_collation, hf, hcol] at hres
    rw [List.getD_eq_getElem?_getD]
    exact hres.symm
  . intro hnc hncol
    cases hE : (ob.getD j default).1 with
    | Collate inner nm => rw [hE] at hnc; simp [Expr.is_collate] at hnc
    | Column t c => rw [hE] at hncol; simp [Expr.is_column] at hncol
    | Literal v =>
        rw [hE] at hres
        simp [resolve_key_collation] at hres
        rw [List.getD_eq_getElem?_getD]
        exact hres.symm
    | Unary op e =>
        rw [hE] at hres
        simp [resolve_key_collation] at hres
        rw [List.getD_eq_getElem?_getD]
        exact hres.symm
    | Binary l op r =>
        rw [hE] at hres
        simp [resolve_key_collation] at hres
        rw [List.getD_eq_getElem?_getD]
        exact hres.symm

/-- C3 witness: the precedence theorem applied to the concrete three-key
example `obW` over `trs1`. -/
theorem claim_C3_witness :
    ∃ cs, pW.insns = p0.insns ++
        [.SorterOpen p0.cursors.length obW.length (obW.map Prod.snd) cs] ∧
      cs.length = obW.length ∧
      ∀ j, j < obW.length →
        (∀ inner nm c, (obW.getD j default).1 = .Collate inner nm →
          CollationSeq.new nm = .ok c → cs.getD j none = some c) ∧
        (∀ t c tbl col, (obW.getD j default).1 = .Column t c →
          trs1.find_table_by_internal_id t = some tbl →
          tbl.get_column_at c = some col → cs.getD j none = col.collation) ∧
        ((obW.getD j default).1.is_collate = false →
          (obW.getD j default).1.is_column = false →
          cs.getD j none = some CollationSeq.default) :=
  claim_C3 p0 ctx0 obW trs1 pW ctxW rfl

/-- C8: given that no table lookup panics, `init_order_by` returns an
error exactly when some sort key is a COLLATE expression whose name is
unregistered, or a column reference whose positional column index does
not exist on its (found) table; translation then aborts with the error
and no sorter configuration is produced. -/
theorem claim_C8 (program : ProgramBuilder) (t_ctx : TranslateCtx)
    (ob : List (Expr × SortOrder)) (trs : TableReferences)
    (hnp : init_order_by program t_ctx ob trs ≠ none) :
    (∃ e, init_order_by program t_ctx ob trs = some (.error e)) ↔
      ∃ j, j < ob.length ∧
        ((∃ inner nm, (ob.getD j default).1 = .Collate inner nm ∧
            ∃ e2, CollationSeq.new nm = .error e2) ∨
          (∃ t c tbl, (ob.getD j default).1 = .Column t c ∧
            trs.find_table_by_internal_id t = some tbl ∧
            tbl.get_column_at c = none)) := by
  constructor
  . rintro ⟨e, he⟩
    have hc := (init_order_by_error_iff program t_ctx ob trs e).mp he
    obtain ⟨j, hj, e2, he2⟩ := collations_of_error_exists ob trs e hc
    exact ⟨j, hj, (resolve_error_cases trs ((ob.getD j default).1)).mp ⟨e2, he2⟩⟩
  . rintro ⟨j, hj, hcases⟩
    obtain ⟨e2, he2⟩ :=
      (resolve_error_cases trs ((ob.getD j default).1)).mpr hcases
    cases hc : collations_of ob trs with
    | none =>
        exact absurd ((init_order_by_none_iff program t_ctx ob trs).mpr hc) hnp
    | some r =>
        cases r with
        | error e =>
            exact ⟨e, (init_order_by_error_iff program t_ctx ob trs e).mpr hc⟩
        | ok cs =>
            obtain ⟨_, hall⟩ := collations_of_ok_spec ob trs cs hc
            have := hall j hj
            rw [he2] at this
            exact absurd ((Option.some.injEq _ _).mp this) (by simp)

/-- C8 witness: the error characterization applied to the one-key list
`obE` whose collation name X is unregistered. -/
theorem claim_C8_witness : ∃ e, init_order_by p0 ctx0 obE trs1 = some (.error e) := by
  have hnp : init_order_by p0 ctx0 obE trs1 ≠ none := by
    rw [show init_order_by p0 ctx0 obE trs1 =
      some (.error (.UnknownCollation "X")) from rfl]
    simp
  exact (claim_C8 p0 ctx0 obE trs1 hnp).mpr
    ⟨0, by simp [obE], Or.inl ⟨.Literal 0, "X", rfl, .UnknownCollation "X", rfl⟩⟩

/-- C9: the per-key collation entry handed to the sorter configuration is
the absent value (`none`) for a bare column reference whose column has no
declared collation, but the default binary collation wrapped in `some`
for a key that is neither a column reference nor COLLATE-annotated; the
two cases are distinguishable in the configuration. -/
theorem claim_C9 (program : ProgramBuilder) (t_ctx : TranslateCtx)
    (ob : List (Expr × SortOrder)) (trs : TableReferences)
    (p2 : ProgramBuilder) (ctx2 : TranslateCtx)
    (h : init_order_by program t_ctx ob trs = some (.ok (p2, ctx2))) :
    ∃ cs, p2.insns = program.insns ++
        [.SorterOpen program.cursors.length ob.length (ob.map Prod.snd) cs] ∧
      cs.length = ob.length ∧
      (∀ j t c tbl col, j < ob.length → (ob.getD j default).1 = .Column t c →
        trs.find_table_by_internal_id t = some tbl →
        tbl.get_column_at c = some col → col.collation = none →
        cs.getD j (some CollationSeq.default) = none) ∧
      (∀ j, j < ob.length → (ob.getD j default).1.is_collate = false →
        (ob.getD j default).1.is_column = false →
        cs.getD j none = some CollationSeq.default) ∧
      (none : Option CollationSeq) ≠ some CollationSeq.default := by
  obtain ⟨cs, hcoll, hins, _⟩ := init_order_by_ok_spec program t_ctx ob trs p2 ctx2 h
  obtain ⟨hlen, hall⟩ := collations_of_ok_spec ob trs cs hcoll
  refine ⟨cs, hins, hlen, ?_, ?_, by simp⟩
  . intro j t c tbl col hj hkey hf hcol hnone
    have hres := hall j hj
    rw [hkey] at hres
    simp [resolve_key_collation, hf, hcol, hnone] at hres
    have hjcs : j < cs.length := by omega
    rw [List.getElem?_eq_getElem hjcs] at hres
    simp only [Option.getD_some] at hres
    rw [List.getD_eq_getElem cs (some CollationSeq.default) hjcs]
    exact hres.symm
  . intro j hj hnc hncol
    have hres := hall j hj
    cases hE : (ob.getD j default).1 with
    | Collate inner nm => rw [hE] at hnc; simp [Expr.is_collate] at hnc
    | Column t c => rw [hE] at hncol; simp [Expr.is_column] at hncol
    | Literal v =>
        rw [hE] at hres
        simp [resolve_key_collation] at hres
        rw [List.getD_eq_getElem?_getD]
        exact hres.symm
    | Unary op e =>
        rw [hE] at hres
        simp [resolve_key_collation] at hres
        rw [List.getD_eq_getElem?_getD]
        exact hres.symm
    | Binary l op r =>
        rw [hE] at hres
        simp [resolve_key_collation] at hres
        rw [List.getD_eq_getElem?_getD]
        exact hres.symm

/-- C9 witness: the none-versus-default distinction on the concrete key
list `obW` (key 1 is a bare reference to the collation-free column 0,
key 2 is a literal). -/
theorem claim_C9_witness :
    ∃ cs, pW.insns = p0.insns ++
        [.SorterOpen p0.cursors.length obW.length (obW.map Prod.snd) cs] ∧
      cs.length = obW.length ∧
      (∀ j t c tbl col, j < obW.length → (obW.getD j default).1 = .Column t c →
        trs1.find_table_by_internal_id t = some tbl →
        tbl.get_column_at c = some col → col.collation = none →
        cs.getD j (some CollationSeq.default) = none) ∧
      (∀ j, j < obW.length → (obW.getD j default).1.is_collate = false →
        (obW.getD j default).1.is_column = false →
        cs.getD j none = some CollationSeq.default) ∧
      (none : Option CollationSeq) ≠ some CollationSeq.default :=
  claim_C9 p0 ctx0 obW trs1 pW ctxW rfl

/-- C10 counterexample: on `ob10`, whose second key is a column reference
with an absent table id but whose first key already fails collation
resolution, `init_order_by` does not panic: it returns the
unknown-collation error, refuting the claim that any absent table id
panics and that every return implies all table lookups succeeded. -/
theorem claim_C10_counterexample :
    (ob10.getD 1 default).1 = Expr.Column 5 0 ∧
      trs1.find_table_by_internal_id 5 = none ∧
      init_order_by p0 ctx0 ob10 trs1 =
        some (.error (.UnknownCollation "X")) :=
  ⟨rfl, rfl, rfl⟩

/-- C10 (amended): if some sort key is a column reference whose table id
is absent and every earlier key resolves without error, `init_order_by`
panics (models as `none`); and whenever it returns successfully, every
column-reference key's table lookup succeeded. -/
theorem claim_C10 (program : ProgramBuilder) (t_ctx : TranslateCtx)
    (ob : List (Expr × SortOrder)) (trs : TableReferences) :
    (∀ j t c, j < ob.length → (ob.getD j default).1 = .Column t c →
      trs.find_table_by_internal_id t = none →
      (∀ j2, j2 < j → ∃ v,
        resolve_key_collation trs ((ob.getD j2 default).1) = some (.ok v)) →
      init_order_by program t_ctx ob trs = none) ∧
    (∀ r, init_order_by program t_ctx ob trs = some (.ok r) →
      ∀ j t c, j < ob.length → (ob.getD j default).1 = .Column t c →
        ∃ tbl, trs.find_table_by_internal_id t = some tbl) := by
  constructor
  . intro j t c hj hkey hf hearlier
    have hpanic : resolve_key_collation trs ((ob.getD j default).1) = none := by
      rw [hkey]
      simp [resolve_key_collation, hf]
    have := collations_of_none_of_first_panic ob trs j hj hpanic hearlier
    exact (init_order_by_none_iff program t_ctx ob trs).mpr this
  . rintro ⟨pr, cr⟩ h j t c hj hkey
    obtain ⟨cs, hcoll, _, _⟩ :=
      init_order_by_ok_spec program t_ctx ob trs pr cr h
    obtain ⟨_, hall⟩ := collations_of_ok_spec ob trs cs hcoll
    have hres := hall j hj
    rw [hkey] at hres
    cases hf : trs.find_table_by_internal_id t with
    | none => simp [resolve_key_collation, hf] at hres
    | some tbl => exact ⟨tbl, rfl⟩

/-- C10 witness: the amended statement applied to a single-key list whose
column reference names the absent table id 5. -/
theorem claim_C10_witness :
    init_order_by p0 ctx0 [(Expr.Column 5 0, SortOrder.Asc)] trs1 = none :=
  (claim_C10 p0 ctx0 [(Expr.Column 5 0, SortOrder.Asc)] trs1).1 0 5 0
    (by simp) rfl rfl (fun j2 hj2 => absurd hj2 (by omega))

/-- C4: `order_by_deduplicate_result_columns` binds each result column to
the first structurally equivalent sort key, records exactly one pair for
it, records nothing for a column matching no key, and returns `none`
exactly when no result column matches any sort key. -/
theorem claim_C4 (ob : List (Expr × SortOrder)) (rcs : List ResultSetColumn) :
    (∀ i k l, i < rcs.length → k < ob.length →
      exprs_are_equivalent ((ob.getD k default).1)
        ((rcs.getD i default).expr) = true →
      (∀ k2, k2 < k → exprs_are_equivalent ((ob.getD k2 default).1)
        ((rcs.getD i default).expr) = false) →
      order_by_deduplicate_result_columns ob rcs = some l →
      ((i, k) ∈ l ∧ ∀ k2, (i, k2) ∈ l → k2 = k)) ∧
    (∀ i l, i < rcs.length →
      (∀ q ∈ ob, exprs_are_equivalent q.1 ((rcs.getD i default).expr) = false) →
      order_by_deduplicate_result_columns ob rcs = some l →
      ∀ k2, (i, k2) ∉ l) ∧
    (order_by_deduplicate_result_columns ob rcs = none ↔
      ∀ rc ∈ rcs, ∀ q ∈ ob, exprs_are_equivalent q.1 rc.expr = false) := by
  have hsome : ∀ l, order_by_deduplicate_result_columns ob rcs = some l →
      l = dedup_from ob 0 rcs := by
    intro l hl
    unfold order_by_deduplicate_result_columns at hl
    cases hd : dedup_from ob 0 rcs with
    | nil => rw [hd] at hl; exact Option.noConfusion hl
    | cons x xs => rw [hd] at hl; exact ((Option.some.injEq _ _).mp hl).symm
  refine ⟨?_, ?_, ?_⟩
  . intro i k l hi hk hmatch hfirst hl
    have hfi : find_index
        (fun q => exprs_are_equivalent q.1 ((rcs.getD i default).expr)) ob =
        some k :=
      find_index_eq_some_of _ ob k default hk hmatch hfirst
    have hld := hsome l hl
    subst hld
    constructor
    . exact (dedup_from_mem ob rcs 0 i k).mpr ⟨i, hi, by omega, hfi⟩
    . intro k2 hk2
      obtain ⟨i2, hi2, hieq, hfi2⟩ := (dedup_from_mem ob rcs 0 i k2).mp hk2
      have : i2 = i := by omega
      subst this
      rw [hfi] at hfi2
      exact ((Option.some.injEq _ _).mp hfi2).symm
  . intro i l hi hnone hl k2 hk2
    have hld := hsome l hl
    subst hld
    obtain ⟨i2, hi2, hieq, hfi2⟩ := (dedup_from_mem ob rcs 0 i k2).mp hk2
    have : i2 = i := by omega
    subst this
    rw [(find_index_eq_none_iff _ ob).mpr hnone] at hfi2
    exact Option.noConfusion hfi2
  . have hiff : order_by_deduplicate_result_columns ob rcs = none ↔
        dedup_from ob 0 rcs = [] := by
      unfold order_by_deduplicate_result_columns
      cases hd : dedup_from ob 0 rcs with
      | nil => simp
      | cons x xs => simp
    rw [hiff, dedup_from_eq_nil_iff]
    constructor
    . intro h rc hrc q hq
      exact (find_index_eq_none_iff _ ob).mp (h rc hrc) q hq
    . intro h rc hrc
      exact (find_index_eq_none_iff _ ob).mpr (fun q hq => h rc hrc q hq)

/-- C4 witness: on SELECT name, price ORDER BY price DESC, the price
column (index 1) binds to sort key 0 and that is its only entry. -/
theorem claim_C4_witness : ((1, 0) ∈ [(1, 0)] ∧ ∀ k2, (1, k2) ∈ [(1, 0)] → k2 = 0) :=
  (claim_C4 ob1 rcs1).1 1 0 [(1, 0)] (by simp [rcs1]) (by simp [ob1])
    (by decide) (fun k2 hk2 => absurd hk2 (by omega)) rfl

theorem countP_fi_split (ob : List (Expr × SortOrder))
    (rcs : List ResultSetColumn) :
    rcs.countP (fun rc =>
        (find_index (fun q => exprs_are_equivalent q.1 rc.expr) ob).isSome) +
      rcs.countP (fun rc =>
        (find_index (fun q => exprs_are_equivalent q.1 rc.expr) ob).isNone) =
      rcs.length :=
  countP_isSome_add_isNone _ rcs

theorem feed_count_dedup (trs : TableReferences) (ob : List (Expr × SortOrder))
    (p : ProgramBuilder) (rcs : List ResultSetColumn) (cur_reg cur_idx : Nat) :
    (feed_rc_loop trs (order_by_deduplicate_result_columns ob rcs) p 0 rcs
        cur_reg cur_idx).2.2 +
      ((order_by_deduplicate_result_columns ob rcs).map List.length).getD 0 =
      rcs.length := by
  have hs : ∀ m, m < rcs.length →
      (find_skip (order_by_deduplicate_result_columns ob rcs) (0 + m)).isSome =
        (find_index (fun q => exprs_are_equivalent q.1
          ((rcs.getD m default).expr)) ob).isSome := by
    intro m hm
    rw [Nat.zero_add, find_skip_dedup ob rcs m hm]
    cases find_index (fun q => exprs_are_equivalent q.1
      ((rcs.getD m default).expr)) ob <;> simp
  rw [feed_rc_loop_count trs _ ob p 0 rcs cur_reg cur_idx hs, skip_len_eq,
    dedup_from_length]
  have := countP_fi_split ob rcs
  omega

theorem order_by_sorter_insert_none_of_distinct (program : ProgramBuilder)
    (sm : SortMetadata) (res : List Nat) (plan : SelectPlan)
    (hd : plan.distinctness = .Distinct none) :
    order_by_sorter_insert program sm res plan = none := by
  unfold order_by_sorter_insert
  cases plan.order_by <;> simp [hd]

/-- C1: the sorter record column count computed at feed time equals
keys + result columns − dedup-skipped columns, and (when the context
skip list is the dedup output) the drain-time pseudo-cursor decoding
view is opened with the same column count. -/
theorem claim_C1 (program program2 : ProgramBuilder) (sm sm2 : SortMetadata)
    (t_ctx : TranslateCtx) (plan : SelectPlan) (ob : List (Expr × SortOrder))
    (sr : Nat) (res res2 : List Nat) (pf pd : ProgramBuilder)
    (hob : plan.order_by = some ob)
    (hfeed : order_by_sorter_insert program sm res plan = some (pf, res2))
    (hskip : t_ctx.result_columns_to_skip_in_orderby_sorter =
      order_by_deduplicate_result_columns ob plan.result_columns)
    (hms : t_ctx.meta_sort = some sm2)
    (hsr : t_ctx.reg_result_cols_start = some sr)
    (hlen : plan.result_columns.length ≤
      t_ctx.result_column_indexes_in_orderby_sorter.length)
    (hdrain : emit_order_by program2 t_ctx plan = some pd) :
    Insn.MakeRecord program.next_reg
        (ob.length + plan.result_columns.length -
          ((order_by_deduplicate_result_columns ob
            plan.result_columns).map List.length).getD 0)
        sm.reg_sorter_data ∈ pf.insns ∧
    Insn.OpenPseudo program2.cursors.length sm2.reg_sorter_data
        (ob.length + plan.result_columns.length -
          ((order_by_deduplicate_result_columns ob
            plan.result_columns).map List.length).getD 0) ∈ pd.insns ∧
    CursorType.Pseudo ⟨ob.length + plan.result_columns.length -
        ((order_by_deduplicate_result_columns ob
          plan.result_columns).map List.length).getD 0⟩ ∈ pd.cursors := by
  refine ⟨?_, ?_, ?_⟩
  . cases hdist : plan.distinctness with
    | NonDistinct =>
        rw [order_by_sorter_insert_eq program sm res plan ob hob hdist] at hfeed
        have hpf := ((Prod.mk.injEq _ _ _ _).mp
          ((Option.some.injEq _ _).mp hfeed)).1
        rw [← hpf, sorter_insert_insns]
        simp
    | Distinct ctx =>
        cases ctx with
        | none =>
            rw [order_by_sorter_insert_none_of_distinct program sm res plan
              hdist] at hfeed
            exact Option.noConfusion hfeed
        | some u =>
            cases u
            rw [order_by_sorter_insert_eq_distinct program sm res plan ob hob
              hdist] at hfeed
            have hpf := ((Prod.mk.injEq _ _ _ _).mp
              ((Option.some.injEq _ _).mp hfeed)).1
            rw [← hpf, sorter_insert_insns]
            simp
  . have hins := emit_order_by_spec program2 t_ctx plan ob sm2 sr pd hob hms
      hsr hlen hdrain
    rw [hskip] at hins
    rw [hins]
    simp
  . have hcur := emit_order_by_spec_cursors program2 t_ctx plan ob sm2 sr pd
      hob hms hsr hlen hdrain
    rw [hskip] at hcur
    rw [hcur]
    simp

/-- C7: with SELECT DISTINCT, the deduplication check is emitted over
exactly keys + non-redundant result columns registers, starting at the
sorter layout start register, and before the record is packed and
inserted into the sorter. -/
theorem claim_C7 (program : ProgramBuilder) (sm : SortMetadata)
    (res : List Nat) (plan : SelectPlan) (ob : List (Expr × SortOrder))
    (pf : ProgramBuilder) (res2 : List Nat)
    (hob : plan.order_by = some ob)
    (hd : plan.distinctness = .Distinct (some ()))
    (hfeed : order_by_sorter_insert program sm res plan = some (pf, res2)) :
    ∃ pre, pf.insns = pre ++
      [.DistinctCheck (ob.length + (plan.result_columns.length -
          ((order_by_deduplicate_result_columns ob
            plan.result_columns).map List.length).getD 0)) program.next_reg,
       .MakeRecord program.next_reg
        (ob.length + plan.result_columns.length -
          ((order_by_deduplicate_result_columns ob
            plan.result_columns).map List.length).getD 0)
        sm.reg_sorter_data,
       .SorterInsert sm.sort_cursor sm.reg_sorter_data] := by
  rw [order_by_sorter_insert_eq_distinct program sm res plan ob hob hd] at hfeed
  have hpf := ((Prod.mk.injEq _ _ _ _).mp ((Option.some.injEq _ _).mp hfeed)).1
  have hcnt := feed_count_dedup plan.table_references ob
    (translate_keys plan.table_references
      (program.alloc_registers (ob.length + plan.result_columns.length -
        ((order_by_deduplicate_result_columns ob
          plan.result_columns).map List.length).getD 0)).2
      ob program.next_reg)
    plan.result_columns (program.next_reg + ob.length) ob.length
  have hc2 : (feed_rc_loop plan.table_references
      (order_by_deduplicate_result_columns ob plan.result_columns)
      (translate_keys plan.table_references
        (program.alloc_registers (ob.length + plan.result_columns.length -
          ((order_by_deduplicate_result_columns ob
            plan.result_columns).map List.length).getD 0)).2
        ob program.next_reg)
      0 plan.result_columns (program.next_reg + ob.length) ob.length).2.2 =
      plan.result_columns.length -
        ((order_by_deduplicate_result_columns ob
          plan.result_columns).map List.length).getD 0 := by
    omega
  rw [← hpf, sorter_insert_insns]
  rw [hc2]
  refine ⟨(feed_rc_loop plan.table_references
      (order_by_deduplicate_result_columns ob plan.result_columns)
      (translate_keys plan.table_references
        (program.alloc_registers (ob.length + plan.result_columns.length -
          ((order_by_deduplicate_result_columns ob
            plan.result_columns).map List.length).getD 0)).2
        ob program.next_reg)
      0 plan.result_columns (program.next_reg + ob.length) ob.length).1.insns, ?_⟩
  simp [ProgramBuilder.emit_insn]

/-- Program produced by feeding one row of `plan1` into the sorter. -/
def pf1 : ProgramBuilder := ((order_by_sorter_insert p0 sm1 [] plan1).getD (p0, [])).1

/-- Layout indexes recorded while feeding one row of `plan1`. -/
def map1 : List Nat := ((order_by_sorter_insert p0 sm1 [] plan1).getD (p0, [])).2

/-- Translation context after the feed phase of `plan1`. -/
def ctx1 : TranslateCtx :=
  ⟨some sm1, some 20, some 21, some 10, map1,
   order_by_deduplicate_result_columns ob1 rcs1⟩

/-- Program produced by draining the sorter of `plan1`. -/
def pd1 : ProgramBuilder := (emit_order_by p0 ctx1 plan1).getD p0

/-- Program produced by feeding one row of the DISTINCT plan `plan1d`. -/
def pf1d : ProgramBuilder :=
  ((order_by_sorter_insert p0 sm1 [] plan1d).getD (p0, [])).1

/-- Layout indexes recorded while feeding one row of `plan1d`. -/
def map1d : List Nat :=
  ((order_by_sorter_insert p0 sm1 [] plan1d).getD (p0, [])).2

/-- C1 witness: the layout-width invariant on the concrete
SELECT name, price ... ORDER BY price DESC plan (width 2). -/
theorem claim_C1_witness :
    Insn.MakeRecord p0.next_reg
        (ob1.length + plan1.result_columns.length -
          ((order_by_deduplicate_result_columns ob1
            plan1.result_columns).map List.length).getD 0)
        sm1.reg_sorter_data ∈ pf1.insns ∧
    Insn.OpenPseudo p0.cursors.length sm1.reg_sorter_data
        (ob1.length + plan1.result_columns.length -
          ((order_by_deduplicate_result_columns ob1
            plan1.result_columns).map List.length).getD 0) ∈ pd1.insns ∧
    CursorType.Pseudo ⟨ob1.length + plan1.result_columns.length -
        ((order_by_deduplicate_result_columns ob1
          plan1.result_columns).map List.length).getD 0⟩ ∈ pd1.cursors :=
  claim_C1 p0 p0 sm1 sm1 ctx1 plan1 ob1 10 [] map1 pf1 pd1 rfl rfl rfl rfl rfl
    (by decide) rfl

/-- C7 witness: the DISTINCT check on the concrete DISTINCT plan spans
both layout registers, starting at register 0, before pack-and-insert. -/
theorem claim_C7_witness :
    ∃ pre, pf1d.insns = pre ++
      [.DistinctCheck (ob1.length + (plan1d.result_columns.length -
          ((order_by_deduplicate_result_columns ob1
            plan1d.result_columns).map List.length).getD 0)) p0.next_reg,
       .MakeRecord p0.next_reg
        (ob1.length + plan1d.result_columns.length -
          ((order_by_deduplicate_result_columns ob1
            plan1d.result_columns).map List.length).getD 0)
        sm1.reg_sorter_data,
       .SorterInsert sm1.sort_cursor sm1.reg_sorter_data] :=
  claim_C7 p0 sm1 [] plan1d ob1 pf1d map1d rfl rfl rfl

theorem expected_columns_getElem (cursor : Nat) (idxs : List Nat)
    (start_reg i k m : Nat) (hm : m < k) :
    (expected_columns cursor idxs start_reg i k)[m]? =
      some (.Column cursor (idxs.getD (i + m) 0) (start_reg + (i + m))) := by
  rw [← List.get?_eq_getElem?]
  exact expected_columns_get cursor idxs start_reg i k m hm

theorem emit_order_by_col_get (program : ProgramBuilder) (t_ctx : TranslateCtx)
    (plan : SelectPlan) (ob : List (Expr × SortOrder)) (sm : SortMetadata)
    (sr : Nat) (pd : ProgramBuilder)
    (hob : plan.order_by = some ob)
    (hms : t_ctx.meta_sort = some sm)
    (hsr : t_ctx.reg_result_cols_start = some sr)
    (hlen : plan.result_columns.length ≤
      t_ctx.result_column_indexes_in_orderby_sorter.length)
    (h : emit_order_by program t_ctx plan = some pd)
    (i : Nat) (hi : i < plan.result_columns.length) :
    pd.insns[program.insns.length + 3 +
        (offset_insns t_ctx.reg_offset (program.next_label + 1)).length + i]? =
      some (.Column program.cursors.length
        (t_ctx.result_column_indexes_in_orderby_sorter.getD i 0) (sr + i)) := by
  have hins := emit_order_by_spec program t_ctx plan ob sm sr pd hob hms hsr
    hlen h
  rw [hins]
  have hidx : program.insns.length + 3 +
      (offset_insns t_ctx.reg_offset (program.next_label + 1)).length + i =
      (((program.insns ++
        [Insn.OpenPseudo program.cursors.length sm.reg_sorter_data
            (ob.length + plan.result_columns.length -
              ((t_ctx.result_columns_to_skip_in_orderby_sorter.map
                List.length).getD 0)),
          Insn.SorterSort sm.sort_cursor (program.next_label + 2)]) ++
        offset_insns t_ctx.reg_offset (program.next_label + 1)) ++
        [Insn.SorterData sm.sort_cursor sm.reg_sorter_data
          program.cursors.length]).length + i := by
    simp [List.length_append]
    omega
  rw [hidx]
  rw [List.getElem?_append_left, List.getElem?_append_left,
    List.getElem?_append_left]
  . rw [getElem_append_len]
    rw [expected_columns_getElem _ _ _ _ _ i (by simpa using hi)]
    simp
  . simp [List.length_append, expected_columns_length]
    omega
  . simp [List.length_append, expected_columns_length]
    omega
  . simp [List.length_append, expected_columns_length]
    omega

/-- C5: the drain loop decodes, for each SELECT position i, the column at
that position's recorded layout index into the contiguous output register
start_reg + i, so output registers follow SELECT-clause order. -/
theorem claim_C5 (program : ProgramBuilder) (t_ctx : TranslateCtx)
    (plan : SelectPlan) (ob : List (Expr × SortOrder)) (sm : SortMetadata)
    (sr : Nat) (pd : ProgramBuilder)
    (hob : plan.order_by = some ob)
    (hms : t_ctx.meta_sort = some sm)
    (hsr : t_ctx.reg_result_cols_start = some sr)
    (hlen : plan.result_columns.length ≤
      t_ctx.result_column_indexes_in_orderby_sorter.length)
    (h : emit_order_by program t_ctx plan = some pd) :
    ∀ i, i < plan.result_columns.length →
      pd.insns[program.insns.length + 3 +
          (offset_insns t_ctx.reg_offset (program.next_label + 1)).length + i]? =
        some (.Column program.cursors.length
          (t_ctx.result_column_indexes_in_orderby_sorter.getD i 0) (sr + i)) :=
  fun i hi =>
    emit_order_by_col_get program t_ctx plan ob sm sr pd hob hms hsr hlen h i hi

/-- C5 witness: on the concrete plan, the two decode instructions read
layout indexes 1 and 0 into output registers 10 and 11 in SELECT order. -/
theorem claim_C5_witness :
    pd1.insns[p0.insns.length + 3 +
        (offset_insns ctx1.reg_offset (p0.next_label + 1)).length + 1]? =
      some (.Column p0.cursors.length
        (ctx1.result_column_indexes_in_orderby_sorter.getD 1 0) (10 + 1)) :=
  claim_C5 p0 ctx1 plan1 ob1 sm1 10 pd1 rfl rfl rfl (by decide) rfl 1
    (by decide)

theorem tcount_emit_insn_of_not (p : ProgramBuilder) (ins : Insn)
    (h : ins.is_translate = false) :
    tcount (p.emit_insn ins).insns = tcount p.insns := by
  simp [ProgramBuilder.emit_insn, tcount, List.countP_append,
    List.countP_cons, h]

theorem sorter_insert_tcount (p : ProgramBuilder) (sr cnt cid rr : Nat) :
    tcount (sorter_insert p sr cnt cid rr).insns = tcount p.insns := by
  rw [sorter_insert_insns]
  simp [tcount, List.countP_append, List.countP_cons, Insn.is_translate]

theorem obsi_run_spec (program : ProgramBuilder) (sm : SortMetadata)
    (res : List Nat) (plan : SelectPlan) (ob : List (Expr × SortOrder))
    (pf : ProgramBuilder) (res2 : List Nat)
    (hob : plan.order_by = some ob)
    (hfeed : order_by_sorter_insert program sm res plan = some (pf, res2)) :
    res2 = (feed_rc_loop plan.table_references
        (order_by_deduplicate_result_columns ob plan.result_columns)
        (translate_keys plan.table_references
          (program.alloc_registers (ob.length + plan.result_columns.length -
            ((order_by_deduplicate_result_columns ob
              plan.result_columns).map List.length).getD 0)).2
          ob program.next_reg)
        0 plan.result_columns (program.next_reg + ob.length) ob.length).2.1
        ++ res ∧
    pf.next_reg = program.next_reg + (ob.length + plan.result_columns.length -
      ((order_by_deduplicate_result_columns ob
        plan.result_columns).map List.length).getD 0) ∧
    tcount pf.insns = tcount program.insns + ob.length +
      (feed_rc_loop plan.table_references
        (order_by_deduplicate_result_columns ob plan.result_columns)
        (translate_keys plan.table_references
          (program.alloc_registers (ob.length + plan.result_columns.length -
            ((order_by_deduplicate_result_columns ob
              plan.result_columns).map List.length).getD 0)).2
          ob program.next_reg)
        0 plan.result_columns (program.next_reg + ob.length) ob.length).2.2 := by
  cases hdist : plan.distinctness with
  | NonDistinct =>
      rw [order_by_sorter_insert_eq program sm res plan ob hob hdist] at hfeed
      have hp := (Prod.mk.injEq _ _ _ _).mp ((Option.some.injEq _ _).mp hfeed)
      refine ⟨hp.2.symm, ?_, ?_⟩
      . rw [← hp.1, sorter_insert_next_reg, feed_rc_loop_next_reg,
          translate_keys_next_reg]
        simp [ProgramBuilder.alloc_registers]
      . rw [← hp.1, sorter_insert_tcount, feed_rc_loop_tcount,
          translate_keys_tcount]
        simp [ProgramBuilder.alloc_registers]
  | Distinct ctx =>
      cases ctx with
      | none =>
          rw [order_by_sorter_insert_none_of_distinct program sm res plan
            hdist] at hfeed
          exact Option.noConfusion hfeed
      | some u =>
          cases u
          rw [order_by_sorter_insert_eq_distinct program sm res plan ob hob
            hdist] at hfeed
          have hp := (Prod.mk.injEq _ _ _ _).mp ((Option.some.injEq _ _).mp hfeed)
          refine ⟨hp.2.symm, ?_, ?_⟩
          . rw [← hp.1, sorter_insert_next_reg]
            have he : ∀ (q : ProgramBuilder) (ins : Insn),
                (q.emit_insn ins).next_reg = q.next_reg := by
              intro q ins
              simp [ProgramBuilder.emit_insn]
            rw [he, feed_rc_loop_next_reg, translate_keys_next_reg]
            simp [ProgramBuilder.alloc_registers]
          . rw [← hp.1, sorter_insert_tcount,
              tcount_emit_insn_of_not _ _ (by rfl), feed_rc_loop_tcount,
              translate_keys_tcount]
            simp [ProgramBuilder.alloc_registers]

/-- C2: a result column equal to sort key k (k the first match) gets the
dedup entry k, contributes no expression evaluation and no layout slot at
feed time, and is decoded from layout index k at drain time. -/
theorem claim_C2 (program program2 : ProgramBuilder) (sm sm2 : SortMetadata)
    (t_ctx : TranslateCtx) (plan : SelectPlan) (ob : List (Expr × SortOrder))
    (sr i k : Nat) (pf pd : ProgramBuilder) (res2 : List Nat)
    (hob : plan.order_by = some ob)
    (hi : i < plan.result_columns.length)
    (hk : k < ob.length)
    (hmatch : exprs_are_equivalent ((ob.getD k default).1)
      ((plan.result_columns.getD i default).expr) = true)
    (hfirst : ∀ k2, k2 < k → exprs_are_equivalent ((ob.getD k2 default).1)
      ((plan.result_columns.getD i default).expr) = false)
    (hfeed : order_by_sorter_insert program sm [] plan = some (pf, res2))
    (hmap : t_ctx.result_column_indexes_in_orderby_sorter = res2)
    (hms : t_ctx.meta_sort = some sm2)
    (hsr : t_ctx.reg_result_cols_start = some sr)
    (hdrain : emit_order_by program2 t_ctx plan = some pd) :
    res2.getD i 0 = k ∧
    tcount pf.insns + ((order_by_deduplicate_result_columns ob
        plan.result_columns).map List.length).getD 0 =
      tcount program.insns + ob.length + plan.result_columns.length ∧
    pf.next_reg = program.next_reg + (ob.length + plan.result_columns.length -
      ((order_by_deduplicate_result_columns ob
        plan.result_columns).map List.length).getD 0) ∧
    pd.insns[program2.insns.length + 3 +
        (offset_insns t_ctx.reg_offset (program2.next_label + 1)).length + i]? =
      some (.Column program2.cursors.length k (sr + i)) := by
  have hfi : find_index (fun q => exprs_are_equivalent q.1
      ((plan.result_columns.getD i default).expr)) ob = some k :=
    find_index_eq_some_of _ ob k default hk hmatch hfirst
  have hfs : find_skip (order_by_deduplicate_result_columns ob
      plan.result_columns) (0 + i) = some (i, k) := by
    rw [Nat.zero_add, find_skip_dedup ob plan.result_columns i hi, hfi]
    rfl
  obtain ⟨hres2, hnreg, htc⟩ :=
    obsi_run_spec program sm [] plan ob pf res2 hob hfeed
  rw [List.append_nil] at hres2
  have ha : res2.getD i 0 = k := by
    rw [hres2]
    exact feed_rc_loop_entry plan.table_references _ _ 0 plan.result_columns
      _ _ i hi (i, k) hfs
  have hlen2 : plan.result_columns.length ≤
      t_ctx.result_column_indexes_in_orderby_sorter.length := by
    rw [hmap, hres2, feed_rc_loop_len]
  refine ⟨ha, ?_, hnreg, ?_⟩
  . have hcd := feed_count_dedup plan.table_references ob
      (translate_keys plan.table_references
        (program.alloc_registers (ob.length + plan.result_columns.length -
          ((order_by_deduplicate_result_columns ob
            plan.result_columns).map List.length).getD 0)).2
        ob program.next_reg)
      plan.result_columns (program.next_reg + ob.length) ob.length
    omega
  . have hcol := emit_order_by_col_get program2 t_ctx plan ob sm2 sr pd hob
      hms hsr hlen2 hdrain i hi
    rw [hmap, ha] at hcol
    exact hcol

/-- C2 witness: on the concrete plan, result column 1 (price) is bound to
sort key 0, only the key and the name column are evaluated (2 slots), and
drain decodes layout index 0 into output register 11. -/
theorem claim_C2_witness :
    map1.getD 1 0 = 0 ∧
    tcount pf1.insns + ((order_by_deduplicate_result_columns ob1
        plan1.result_columns).map List.length).getD 0 =
      tcount p0.insns + ob1.length + plan1.result_columns.length ∧
    pf1.next_reg = p0.next_reg + (ob1.length + plan1.result_columns.length -
      ((order_by_deduplicate_result_columns ob1
        plan1.result_columns).map List.length).getD 0) ∧
    pd1.insns[p0.insns.length + 3 +
        (offset_insns ctx1.reg_offset (p0.next_label + 1)).length + 1]? =
      some (.Column p0.cursors.length 0 (10 + 1)) :=
  claim_C2 p0 p0 sm1 sm1 ctx1 plan1 ob1 10 1 0 pf1 pd1 map1 rfl (by decide)
    (by decide) (by decide) (fun k2 hk2 => absurd hk2 (by omega)) rfl rfl rfl
    rfl rfl

/-- C6: the OFFSET check is at the top of each drain iteration, before the
record fetch and all column decodes; a skipped row jumps to the advance
step (SorterNext); LIMIT exhaustion jumps to the loop end past SorterNext;
and on the modelled row semantics OFFSET 2 LIMIT 1 over five sorted rows
yields exactly the third. -/
theorem claim_C6 (program : ProgramBuilder) (t_ctx : TranslateCtx)
    (plan : SelectPlan) (ob : List (Expr × SortOrder)) (sm : SortMetadata)
    (sr ofsreg limreg : Nat) (pd : ProgramBuilder)
    (hob : plan.order_by = some ob)
    (hms : t_ctx.meta_sort = some sm)
    (hsr : t_ctx.reg_result_cols_start = some sr)
    (hro : t_ctx.reg_offset = some ofsreg)
    (hlc : t_ctx.limit_ctx = some limreg)
    (hlen : plan.result_columns.length ≤
      t_ctx.result_column_indexes_in_orderby_sorter.length)
    (hdrain : emit_order_by program t_ctx plan = some pd) :
    pd.insns[program.insns.length + 2]? =
      some (.IfPos ofsreg (program.next_label + 1)) ∧
    (program.next_label, program.insns.length + 2) ∈ pd.resolved_labels ∧
    pd.insns[program.insns.length + 3]? =
      some (.SorterData sm.sort_cursor sm.reg_sorter_data
        program.cursors.length) ∧
    (∀ i, i < plan.result_columns.length →
      pd.insns[program.insns.length + 4 + i]? =
        some (.Column program.cursors.length
          (t_ctx.result_column_indexes_in_orderby_sorter.getD i 0) (sr + i))) ∧
    pd.insns[program.insns.length + 6 + plan.result_columns.length]? =
      some (.SorterNext sm.sort_cursor program.next_label) ∧
    (program.next_label + 1,
      program.insns.length + 6 + plan.result_columns.length) ∈
      pd.resolved_labels ∧
    pd.insns[program.insns.length + 5 + plan.result_columns.length]? =
      some (.DecrJumpZero limreg (program.next_label + 2)) ∧
    (program.next_label + 2,
      program.insns.length + 7 + plan.result_columns.length) ∈
      pd.resolved_labels ∧
    pd.insns.length = program.insns.length + 7 + plan.result_columns.length ∧
    (∀ x1 x2 x3 x4 x5 : Nat,
      drain_rows [x1, x2, x3, x4, x5] 2 (some 1) = [x3]) := by
  have ho : offset_insns t_ctx.reg_offset (program.next_label + 1) =
      [.IfPos ofsreg (program.next_label + 1)] := by
    rw [hro]
    simp [offset_insns]
  have hl : limit_insns t_ctx.limit_ctx (program.next_label + 2) =
      [.DecrJumpZero limreg (program.next_label + 2)] := by
    rw [hlc]
    simp [limit_insns]
  have hins := emit_order_by_spec program t_ctx plan ob sm sr pd hob hms hsr
    hlen hdrain
  rw [ho, hl] at hins
  simp only [List.append_assoc, List.cons_append, List.nil_append] at hins
  have hres := emit_order_by_spec_resolved program t_ctx plan ob sm sr pd hob
    hms hsr hlen hdrain
  rw [ho, hl] at hres
  simp only [List.length_singleton] at hres
  have hcl : (expected_columns program.cursors.length
      t_ctx.result_column_indexes_in_orderby_sorter sr 0
      plan.result_columns.length).length = plan.result_columns.length :=
    expected_columns_length _ _ _ _ _
  refine ⟨?_, ?_, ?_, ?_, ?_, ?_, ?_, ?_, ?_, ?_⟩
  . rw [hins, getElem_append_len]
    simp
  . rw [hres]
    refine List.mem_append_right _ ?_
    simp
  . have h3 : program.insns.length + 3 = program.insns.length + 3 := rfl
    rw [hins, getElem_append_len]
    simp
  . intro i hi
    have hcol := emit_order_by_col_get program t_ctx plan ob sm sr pd hob hms
      hsr hlen hdrain i hi
    rw [ho] at hcol
    simp only [List.length_singleton] at hcol
    have hidx : program.insns.length + 4 + i =
        program.insns.length + 3 + 1 + i := by omega
    rw [hidx]
    exact hcol
  . have hidx : program.insns.length + 6 + plan.result_columns.length =
        program.insns.length + (6 + plan.result_columns.length) := by omega
    rw [hins, hidx, getElem_append_len]
    have h6 : 6 + plan.result_columns.length =
        plan.result_columns.length + 2 + 1 + 1 + 1 + 1 := by omega
    rw [h6]
    simp only [List.getElem?_cons_succ]
    rw [show plan.result_columns.length + 2 =
      (expected_columns program.cursors.length
        t_ctx.result_column_indexes_in_orderby_sorter sr 0
        plan.result_columns.length).length + 2 from by rw [hcl]]
    rw [getElem_append_len]
    simp
  . rw [hres]
    refine List.mem_append_right _ ?_
    simp only [List.mem_cons, List.mem_singleton]
    right
    left
    rw [Prod.mk.injEq]
    exact ⟨rfl, by omega⟩
  . have hidx : program.insns.length + 5 + plan.result_columns.length =
        program.insns.length + (5 + plan.result_columns.length) := by omega
    rw [hins, hidx, getElem_append_len]
    have h5 : 5 + plan.result_columns.length =
        plan.result_columns.length + 1 + 1 + 1 + 1 + 1 := by omega
    rw [h5]
    simp only [List.getElem?_cons_succ]
    rw [show plan.result_columns.length + 1 =
      (expected_columns program.cursors.length
        t_ctx.result_column_indexes_in_orderby_sorter sr 0
        plan.result_columns.length).length + 1 from by rw [hcl]]
    rw [getElem_append_len]
    simp
  . rw [hres]
    refine List.mem_append_right _ ?_
    simp only [List.mem_cons, List.mem_singleton]
    right
    right
    rw [Prod.mk.injEq]
    exact Or.inl ⟨rfl, by omega⟩
  . rw [hins]
    simp [List.length_append, hcl]
    omega
  . intro x1 x2 x3 x4 x5
    rfl

/-- C6 witness: the structural offset-before-limit facts on the concrete
plan (offset register 20, limit register 21), and the OFFSET 2 LIMIT 1
example over five rows. -/
theorem claim_C6_witness :
    pd1.insns[p0.insns.length + 2]? =
      some (.IfPos 20 (p0.next_label + 1)) ∧
    (p0.next_label, p0.insns.length + 2) ∈ pd1.resolved_labels ∧
    pd1.insns[p0.insns.length + 3]? =
      some (.SorterData sm1.sort_cursor sm1.reg_sorter_data
        p0.cursors.length) ∧
    (∀ i, i < plan1.result_columns.length →
      pd1.insns[p0.insns.length + 4 + i]? =
        some (.Column p0.cursors.length
          (ctx1.result_column_indexes_in_orderby_sorter.getD i 0) (10 + i))) ∧
    pd1.insns[p0.insns.length + 6 + plan1.result_columns.length]? =
      some (.SorterNext sm1.sort_cursor p0.next_label) ∧
    (p0.next_label + 1,
      p0.insns.length + 6 + plan1.result_columns.length) ∈
      pd1.resolved_labels ∧
    pd1.insns[p0.insns.length + 5 + plan1.result_columns.length]? =
      some (.DecrJumpZero 21 (p0.next_label + 2)) ∧
    (p0.next_label + 2,
      p0.insns.length + 7 + plan1.result_columns.length) ∈
      pd1.resolved_labels ∧
    pd1.insns.length = p0.insns.length + 7 + plan1.result_columns.length ∧
    (∀ x1 x2 x3 x4 x5 : Nat,
      drain_rows [x1, x2, x3, x4, x5] 2 (some 1) = [x3]) :=
  claim_C6 p0 ctx1 plan1 ob1 sm1 10 20 21 pd1 rfl rfl rfl rfl rfl (by decide)
    rfl

end Turso
